import Mathlib

/-!
# Platform.Delegates: a shallow embedding of `Delegate` and `MulticastDelegate`

Sources embedded here:

* `Platform.Delegates.Delegate.h`            (class `Delegate<ReturnType(Args...)>`)
* `Platform.Delegates.MulticastDelegate.h`   (class `MulticastDelegate<ReturnType(Args...)>`)
* `MulticastDelegate.h`                      (the older `MulticastDelegate`, namespace `Legacy` below)

Conventions of the embedding.

* `α` is the argument pack `Args...`, `ρ` is `ReturnType`, `σ` is the part of the program state
  that callables can read and write (a counter, a log, ...).
* A call is a function `α → σ → Except Exn ρ × σ`: it returns a value or throws, and in both
  cases leaves a new state behind (effects performed before a throw persist).
* A nullable pointer is an `Option`; `none` is `nullptr`.
* `sizeof(std::function<...>)` is a constant of the build, it is the parameter `size`.
* `std::forward<Args>(args)...` applied to a by-value parameter hands the callee an rvalue; what
  is left behind in the parameter afterwards is `moved args` (the identity when every argument
  type is a reference or is trivially copyable).
* The mutex only serialises whole operations; the embedding is the sequential semantics of one
  operation at a time and callables do not re-enter the registry they are called from.
* Where the order of the operations on the mutexes is the subject (`CopyCallbacks`), a registry
  object is named by its address and the operation returns the list of `Event`s it performs.
-/

namespace Delegates

/-- Exceptions that leave an operation: the two the library throws itself, and whatever a
callable throws (identified by a tag). -/
inductive Exn where
  | bad_function_call
  | logic_error
  | thrown (tag : Nat)
  deriving DecidableEq, Repr

/-- The behaviour of something callable with signature `ReturnType(Args...)`. -/
abbrev Callee (α ρ σ : Type) := α → σ → Except Exn ρ × σ

/-- A plain function `DelegateRawFunctionType`: the address a pointer to it holds, and its code. -/
structure RawFunction (α ρ σ : Type) where
  address : Nat
  body : Callee α ρ σ

/-- A value of `DelegateFunctionType = std::function<ReturnType(Args...)>`.
`target` is what `function.target<DelegateRawFunctionType *>()` points at (`none` when it returns
`nullptr`), `bytes` is the object representation a copy of the value has in a `size`-byte buffer
(taken to be the same for every copy of the value; offsets past the end of the list read as 0),
`call` is what `operator()` of the value does (for an empty `std::function` it throws
`bad_function_call`). -/
structure StdFunction (α ρ σ : Type) where
  target : Option Nat
  bytes : List Nat
  call : Callee α ρ σ

/-- An object of class `MemberMethod<Class>`: `classId` names `Class` (the dynamic type that
`dynamic_cast` inspects), `object` is the address held by the `shared_ptr<Class>`, `member` the
pointer-to-member value and `call` the effect of `(object.get()->*member)(args...)`. -/
structure MemberMethod (α ρ σ : Type) where
  classId : Nat
  object : Nat
  member : Nat
  call : Callee α ρ σ

/-- The data members of `Delegate<ReturnType(Args...)>` (Delegate.h lines 62-64). -/
structure Delegate (α ρ σ : Type) where
  simpleFunction : Option (RawFunction α ρ σ)
  complexFunction : Option (StdFunction α ρ σ)
  memberMethod : Option (MemberMethod α ρ σ)

/-- The three kinds of payload a `Delegate` can hold: `simpleFunction`, `memberMethod`,
`complexFunction`. -/
inductive Payload where
  | FreePointer
  | BoundMethod
  | Closure
  deriving DecidableEq, Repr

section DelegateDefs

variable {α ρ σ : Type}

/-- `MemberMethod::operator()` (line 40). -/
def MemberMethod.opCall (this : MemberMethod α ρ σ) (args : α) (s : σ) : Except Exn ρ × σ :=
  this.call args s

/-- `MemberMethod::operator==` (lines 45-54): the `dynamic_cast` to `const MemberMethod<Class> *`
yields `nullptr` exactly when the other object is a `MemberMethod` of another `Class`. -/
def MemberMethod.opEq (this other : MemberMethod α ρ σ) : Bool :=
  if other.classId ≠ this.classId then
    false
  else
    this.object == other.object && this.member == other.member

/-- `MemberMethod::operator!=` (lines 56-59). -/
def MemberMethod.opNe (this other : MemberMethod α ρ σ) : Bool :=
  !(this.opEq other)

/-- `GetFunctionTarget` (lines 66-74). -/
def GetFunctionTarget (function : StdFunction α ρ σ) : Option Nat :=
  match function.target with
  | none => none
  | some functionPointer => some functionPointer

/-- `ResetAt` (lines 123-127). -/
def ResetAt (leftArray rightArray : List Nat) (i : Nat) : List Nat × List Nat :=
  (leftArray.set i 0, rightArray.set i 0)

/-- `ApplyHack` (lines 102-121). -/
def ApplyHack (leftArray rightArray : List Nat) (size : Nat) : Except Exn (List Nat × List Nat) :=
  if size = 64 then
    let a := ResetAt leftArray rightArray 16
    let b := ResetAt a.1 a.2 56
    .ok (ResetAt b.1 b.2 57)
  else if size = 40 then
    let a := ResetAt leftArray rightArray 8
    let b := ResetAt a.1 a.2 16
    .ok (ResetAt b.1 b.2 36)
  else
    .error Exn.logic_error

/-- The array `std::byte array[size] = {0}` after `new (&array) DelegateFunctionType(f)`
(lines 91-94): `size` bytes, those of the copy. -/
def placementCopy (size : Nat) (f : StdFunction α ρ σ) : List Nat :=
  (List.range size).map (fun i => f.bytes.getD i 0)

/-- `AreBoundFounctionsEqual` (lines 88-98). -/
def AreBoundFounctionsEqual (size : Nat) (left right : StdFunction α ρ σ) : Except Exn Bool :=
  let leftArray := placementCopy size left
  let rightArray := placementCopy size right
  match ApplyHack leftArray rightArray size with
  | .error e => .error e
  | .ok (leftArray, rightArray) => .ok (decide (leftArray = rightArray))

/-- `AreFunctionsEqual` (lines 76-86). -/
def AreFunctionsEqual (size : Nat) (left right : StdFunction α ρ σ) : Except Exn Bool :=
  let leftTargetPointer := GetFunctionTarget left
  let rightTargetPointer := GetFunctionTarget right
  if leftTargetPointer.isNone && rightTargetPointer.isNone then
    AreBoundFounctionsEqual size left right
  else
    .ok (decide (leftTargetPointer = rightTargetPointer))

/-- `Delegate()` (line 152). -/
def Delegate.empty : Delegate α ρ σ :=
  { simpleFunction := none, complexFunction := none, memberMethod := none }

/-- `Delegate(MemberMethodBase *memberMethod)` (line 154). -/
def Delegate.ofMemberMethod (memberMethod : Option (MemberMethod α ρ σ)) : Delegate α ρ σ :=
  { memberMethod := memberMethod, simpleFunction := none, complexFunction := none }

/-- `Delegate(DelegateRawFunctionType &simpleFunction)` (line 156): a reference to a function,
so the stored pointer is not null. -/
def Delegate.ofSimpleFunction (simpleFunction : RawFunction α ρ σ) : Delegate α ρ σ :=
  { simpleFunction := some simpleFunction, memberMethod := none, complexFunction := none }

/-- `Delegate(const DelegateFunctionType &complexFunction)` (line 158): the `shared_ptr` owns a
fresh copy of the `std::function`. -/
def Delegate.ofComplexFunction (complexFunction : StdFunction α ρ σ) : Delegate α ρ σ :=
  { complexFunction := some complexFunction, simpleFunction := none, memberMethod := none }

/-- `Delegate(std::shared_ptr<Class> object, ReturnType(Class:: *member)(Args...))`
(lines 160-161): delegates to the constructor from `new MemberMethod(object, member)`. -/
def Delegate.ofObjectMember (classId object member : Nat) (call : Callee α ρ σ) :
    Delegate α ρ σ :=
  Delegate.ofMemberMethod
    (some { classId := classId, object := object, member := member, call := call })

/-- `Delegate(const Delegate &other)` (line 163). -/
def Delegate.copy (other : Delegate α ρ σ) : Delegate α ρ σ :=
  { simpleFunction := other.simpleFunction, memberMethod := other.memberMethod,
    complexFunction := other.complexFunction }

/-- `Delegate &operator=(const Delegate &other)` (lines 165-174). `sameObject` tells whether
`this == &other`; in that case nothing is written. -/
def Delegate.opAssign (this other : Delegate α ρ σ) (sameObject : Bool) : Delegate α ρ σ :=
  if !sameObject then
    { simpleFunction := other.simpleFunction, memberMethod := other.memberMethod,
      complexFunction := other.complexFunction }
  else
    this

/-- The values a `Delegate` object can take: those the public constructors build, closed under
copy construction and assignment (an assignment to itself has the object on both sides). -/
inductive Delegate.Constructible : Delegate α ρ σ → Prop where
  | default : Delegate.Constructible Delegate.empty
  | memberMethod (m : Option (MemberMethod α ρ σ)) :
      Delegate.Constructible (Delegate.ofMemberMethod m)
  | simpleFunction (f : RawFunction α ρ σ) : Delegate.Constructible (Delegate.ofSimpleFunction f)
  | complexFunction (c : StdFunction α ρ σ) :
      Delegate.Constructible (Delegate.ofComplexFunction c)
  | objectMember (classId object member : Nat) (call : Callee α ρ σ) :
      Delegate.Constructible (Delegate.ofObjectMember classId object member call)
  | copy (d : Delegate α ρ σ) : Delegate.Constructible d → Delegate.Constructible d.copy
  | assign (d other : Delegate α ρ σ) : Delegate.Constructible d →
      Delegate.Constructible other → Delegate.Constructible (d.opAssign other false)
  | assignSelf (d : Delegate α ρ σ) : Delegate.Constructible d →
      Delegate.Constructible (d.opAssign d true)

/-- `Delegate::operator()` (lines 176-194). -/
def Delegate.opCall (this : Delegate α ρ σ) (args : α) (s : σ) : Except Exn ρ × σ :=
  match this.simpleFunction with
  | some simpleFunction => simpleFunction.body args s
  | none =>
    match this.memberMethod with
    | some memberMethod => memberMethod.opCall args s
    | none =>
      match this.complexFunction with
      | some complexFunction => complexFunction.call args s
      | none => (.error Exn.bad_function_call, s)

/-- `Delegate::operator==` (lines 196-214). -/
def Delegate.opEq (size : Nat) (this other : Delegate α ρ σ) : Except Exn Bool :=
  match this.simpleFunction, other.simpleFunction with
  | some f, some g => .ok (decide (f.address = g.address))
  | _, _ =>
    match this.memberMethod, other.memberMethod with
    | some m, some n => .ok (m.opEq n)
    | _, _ =>
      match this.complexFunction, other.complexFunction with
      | some l, some r => AreFunctionsEqual size l r
      | _, _ => .ok false

/-- `Delegate::operator!=` (lines 216-219). -/
def Delegate.opNe (size : Nat) (this other : Delegate α ρ σ) : Except Exn Bool :=
  match this.opEq size other with
  | .error e => .error e
  | .ok b => .ok (!b)

/-- The payload members of a `Delegate` that are not null, in the order `operator()` and
`operator==` test them. -/
def Delegate.payloads (d : Delegate α ρ σ) : List Payload :=
  (if d.simpleFunction.isSome then [Payload.FreePointer] else [])
    ++ (if d.memberMethod.isSome then [Payload.BoundMethod] else [])
    ++ (if d.complexFunction.isSome then [Payload.Closure] else [])

/-- How many of the three payload members of a `Delegate` are not null. -/
def Delegate.populated (d : Delegate α ρ σ) : Nat :=
  d.payloads.length

/-- The value `DelegateFunctionType(f)` for a plain function `f`: its target is the pointer to
`f`, calling it calls `f`; `bytes` is its representation. -/
def StdFunction.ofRawFunction (f : RawFunction α ρ σ) (bytes : List Nat) : StdFunction α ρ σ :=
  { target := some f.address, bytes := bytes, call := f.body }

end DelegateDefs

/-- The data member `callbacks` of `MulticastDelegate<ReturnType(Args...)>`
(Platform.Delegates.MulticastDelegate.h line 24). The `Delegate` base sub-object is built by
`Delegate()` and never touched; the mutex has no sequential content. -/
structure MulticastDelegate (α ρ σ : Type) where
  callbacks : List (Delegate α ρ σ)

/-- What an operation does to the mutexes of the registries (named by the address of the
registry that owns the mutex) and when it copies one vector into another. -/
inductive Event where
  | lock (registry : Nat)
  | unlock (registry : Nat)
  | copyCallbacks (destination source : Nat)
  deriving DecidableEq, Repr

section MulticastDefs

variable {α ρ σ : Type}

/-- `std::find_if(callbacks.rbegin(), callbacks.rend(), pred)`. A reverse iterator is
represented by the number `k` of increments since `rbegin()`: it designates
`callbacks[size - 1 - k]`, and `k = size` is `rend()`. The first argument counts the iterators
still to visit (`last - first`). A throwing predicate ends the search with its exception. -/
def find_if (pred : Delegate α ρ σ → Except Exn Bool) (callbacks : List (Delegate α ρ σ)) :
    Nat → Nat → Except Exn Nat
  | 0, k => .ok k
  | n + 1, k =>
    match pred (callbacks.getD (callbacks.length - 1 - k) Delegate.empty) with
    | .error e => .error e
    | .ok true => .ok k
    | .ok false => find_if pred callbacks n (k + 1)

/-- `std::find(callbacks.rbegin(), callbacks.rend(), value)`: tests `*it == value`. -/
def find (size : Nat) (callbacks : List (Delegate α ρ σ)) (value : Delegate α ρ σ) :
    Except Exn Nat :=
  find_if (fun entry => entry.opEq size value) callbacks callbacks.length 0

/-- `MulticastDelegate()` (line 61). -/
def MulticastDelegate.empty : MulticastDelegate α ρ σ :=
  { callbacks := [] }

/-- `operator+=(const DelegateType &callback)` (lines 127-132). -/
def MulticastDelegate.opAddAssign (this : MulticastDelegate α ρ σ) (callback : Delegate α ρ σ) :
    MulticastDelegate α ρ σ :=
  { callbacks := this.callbacks ++ [callback.copy] }

/-- `operator+=(DelegateRawFunctionType &callback)` (lines 134-137). -/
def MulticastDelegate.opAddAssignRaw (this : MulticastDelegate α ρ σ)
    (callback : RawFunction α ρ σ) : MulticastDelegate α ρ σ :=
  this.opAddAssign (Delegate.ofSimpleFunction callback)

/-- `operator+=(const DelegateFunctionType &callback)` (lines 139-142). -/
def MulticastDelegate.opAddAssignFunction (this : MulticastDelegate α ρ σ)
    (callback : StdFunction α ρ σ) : MulticastDelegate α ρ σ :=
  this.opAddAssign (Delegate.ofComplexFunction callback)

/-- `operator-=(const DelegateType &callback)` (lines 144-153). `searchResult.base()` is the
forward position `size - k`, so `--(searchResult.base())` is `size - k - 1`. -/
def MulticastDelegate.opSubAssign (size : Nat) (this : MulticastDelegate α ρ σ)
    (callback : Delegate α ρ σ) : Except Exn (MulticastDelegate α ρ σ) :=
  match find size this.callbacks callback with
  | .error e => .error e
  | .ok searchResult =>
    if searchResult ≠ this.callbacks.length then
      let removedCallbackPosition := this.callbacks.length - searchResult - 1
      .ok { callbacks := this.callbacks.eraseIdx removedCallbackPosition }
    else
      .ok this

/-- `operator-=(DelegateRawFunctionType &callback)` (lines 155-158). -/
def MulticastDelegate.opSubAssignRaw (size : Nat) (this : MulticastDelegate α ρ σ)
    (callback : RawFunction α ρ σ) : Except Exn (MulticastDelegate α ρ σ) :=
  this.opSubAssign size (Delegate.ofSimpleFunction callback)

/-- `operator-=(const DelegateFunctionType &callback)` (lines 160-163). -/
def MulticastDelegate.opSubAssignFunction (size : Nat) (this : MulticastDelegate α ρ σ)
    (callback : StdFunction α ρ σ) : Except Exn (MulticastDelegate α ρ σ) :=
  this.opSubAssign size (Delegate.ofComplexFunction callback)

/-- The loop `for (size_t i = 0; i < lastElement; i++) callbacks[i](std::forward<Args>(args)...)`
(lines 174-177). The first argument is the number `lastElement - i` of iterations left. Each
iteration forwards the parameter pack, which leaves `moved args` in it; a throwing entry ends
the loop. Returns the pack and the state at the exit. -/
def forLoop (moved : α → α) (callbacks : List (Delegate α ρ σ)) :
    Nat → Nat → α → σ → Except Exn Unit × α × σ
  | 0, _, args, s => (.ok (), args, s)
  | n + 1, i, args, s =>
    match (callbacks.getD i Delegate.empty).opCall args s with
    | (.error e, s1) => (.error e, moved args, s1)
    | (.ok _, s1) => forLoop moved callbacks n (i + 1) (moved args) s1

/-- `MulticastDelegate::operator()` (lines 165-179). -/
def MulticastDelegate.opCall (moved : α → α) (this : MulticastDelegate α ρ σ) (args : α) (s : σ) :
    Except Exn ρ × σ :=
  let callbacksSize := this.callbacks.length
  if callbacksSize = 0 then
    (.error Exn.bad_function_call, s)
  else
    let lastElement := callbacksSize - 1
    match forLoop moved this.callbacks lastElement 0 args s with
    | (.error e, _, s1) => (.error e, s1)
    | (.ok _, args1, s1) => (this.callbacks.getD lastElement Delegate.empty).opCall args1 s1

/-- `operator-=(const DelegateType &callback)` (lines 144-153) as a transition of the object:
the exception that leaves the operator, if any, and the value of `*this` at that moment. The
only write to `callbacks` is the `erase`, which runs after `std::find` has returned. -/
def MulticastDelegate.opSubAssignEffect (size : Nat) (this : MulticastDelegate α ρ σ)
    (callback : Delegate α ρ σ) : Option Exn × MulticastDelegate α ρ σ :=
  match find size this.callbacks callback with
  | .error e => (some e, this)
  | .ok searchResult =>
    if searchResult ≠ this.callbacks.length then
      let removedCallbackPosition := this.callbacks.length - searchResult - 1
      (none, { callbacks := this.callbacks.eraseIdx removedCallbackPosition })
    else
      (none, this)

/-- `CopyCallbacksUnsync` (lines 31-34): the vector is copy-assigned, entry by entry. -/
def MulticastDelegate.CopyCallbacksUnsync (_this other : MulticastDelegate α ρ σ) :
    MulticastDelegate α ρ σ :=
  { callbacks := other.callbacks.map Delegate.copy }

/-- `MoveCallbacksUnsync` (lines 26-29). -/
def MulticastDelegate.MoveCallbacksUnsync (_this other : MulticastDelegate α ρ σ) :
    MulticastDelegate α ρ σ :=
  { callbacks := other.callbacks }

/-- `CopyCallbacks` (lines 36-52). A registry object is identified by its address; the result
is the sequence of operations on the two mutexes and on `callbacks`, in program order, and the
new value of `*this`. The `lock_guard`s of a block unlock in the reverse order of their
construction when the block is left. -/
def MulticastDelegate.CopyCallbacks (thisAddress otherAddress : Nat)
    (this other : MulticastDelegate α ρ σ) : List Event × MulticastDelegate α ρ σ :=
  if thisAddress < otherAddress then
    ([Event.lock thisAddress, Event.lock otherAddress,
        Event.copyCallbacks thisAddress otherAddress,
        Event.unlock otherAddress, Event.unlock thisAddress],
      this.CopyCallbacksUnsync other)
  else
    ([Event.lock otherAddress, Event.lock thisAddress,
        Event.copyCallbacks thisAddress otherAddress,
        Event.unlock thisAddress, Event.unlock otherAddress],
      this.CopyCallbacksUnsync other)

/-- `MulticastDelegate(const MulticastDelegate &multicastDelegate)` (lines 78-81): the new
object, at `thisAddress`, starts with an empty vector. -/
def MulticastDelegate.copyConstruct (thisAddress otherAddress : Nat)
    (multicastDelegate : MulticastDelegate α ρ σ) : List Event × MulticastDelegate α ρ σ :=
  MulticastDelegate.CopyCallbacks thisAddress otherAddress MulticastDelegate.empty
    multicastDelegate

/-- `operator=(const MulticastDelegate &other)` (lines 88-95). -/
def MulticastDelegate.opAssign (thisAddress otherAddress : Nat)
    (this other : MulticastDelegate α ρ σ) : List Event × MulticastDelegate α ρ σ :=
  if thisAddress ≠ otherAddress then
    MulticastDelegate.CopyCallbacks thisAddress otherAddress this other
  else
    ([], this)

/-- The mutexes held after a sequence of operations, given those held before it. -/
def heldAfter : List Event → List Nat → List Nat
  | [], held => held
  | Event.lock a :: rest, held => heldAfter rest (a :: held)
  | Event.unlock a :: rest, held => heldAfter rest (held.erase a)
  | Event.copyCallbacks _ _ :: rest, held => heldAfter rest held

end MulticastDefs

/-! ## The older `MulticastDelegate.h`

It includes a `Delegate.h` that is not among the sources; the class `Delegate` of
`Platform.Delegates.Delegate.h`, embedded above, stands for it. -/

namespace Legacy

variable {α ρ σ : Type}

/-- `operator+= (const DelegateType&& callback)` (MulticastDelegate.h lines 42-47). -/
def opAddAssign (this : MulticastDelegate α ρ σ) (callback : Delegate α ρ σ) :
    MulticastDelegate α ρ σ :=
  { callbacks := this.callbacks ++ [callback.copy] }

/-- `operator+= (DelegateRawFunctionType&& callback)` (lines 49-52). -/
def opAddAssignRaw (this : MulticastDelegate α ρ σ) (callback : RawFunction α ρ σ) :
    MulticastDelegate α ρ σ :=
  opAddAssign this (Delegate.ofSimpleFunction callback)

/-- `operator+= (DelegateFunctionType&& callback)` (lines 54-58): the body only returns. -/
def opAddAssignFunction (this : MulticastDelegate α ρ σ) (_callback : StdFunction α ρ σ) :
    MulticastDelegate α ρ σ :=
  this

/-- `operator-= (DelegateType&& callback)` (lines 60-73): the predicate of `std::find_if` is
`callback == other`, the argument on the left. -/
def opSubAssign (size : Nat) (this : MulticastDelegate α ρ σ) (callback : Delegate α ρ σ) :
    Except Exn (MulticastDelegate α ρ σ) :=
  match find_if (fun other => callback.opEq size other) this.callbacks this.callbacks.length 0 with
  | .error e => .error e
  | .ok searchResult =>
    if searchResult ≠ this.callbacks.length then
      let removedCallbackPosition := this.callbacks.length - searchResult - 1
      .ok { callbacks := this.callbacks.eraseIdx removedCallbackPosition }
    else
      .ok this

/-- `operator-= (DelegateRawFunctionType&& callback)` (lines 75-78). -/
def opSubAssignRaw (size : Nat) (this : MulticastDelegate α ρ σ) (callback : RawFunction α ρ σ) :
    Except Exn (MulticastDelegate α ρ σ) :=
  opSubAssign size this (Delegate.ofSimpleFunction callback)

/-- `operator-= (DelegateFunctionType&& callback)` (lines 80-84): the body only returns. -/
def opSubAssignFunction (this : MulticastDelegate α ρ σ) (_callback : StdFunction α ρ σ) :
    MulticastDelegate α ρ σ :=
  this

/-- `operator()` (lines 86-100): the entries are called with `args...`, a copy of the pack, so
the pack keeps its value; this is the loop above with nothing moved. -/
def opCall (this : MulticastDelegate α ρ σ) (args : α) (s : σ) : Except Exn ρ × σ :=
  let callbacksSize := this.callbacks.length
  if callbacksSize = 0 then
    (.error Exn.bad_function_call, s)
  else
    let lastElement := callbacksSize - 1
    match forLoop id this.callbacks lastElement 0 args s with
    | (.error e, _, s1) => (.error e, s1)
    | (.ok _, args1, s1) => (this.callbacks.getD lastElement Delegate.empty).opCall args1 s1

end Legacy

/-! ## Reference semantics of a sweep, by recursion on the list of entries -/

section Reference

variable {α ρ σ : Type}

/-- Calls the entries of the list once each, first to last, the `i`-th one with the pack as the
`i - 1` earlier forwards left it, throwing the results away; stops at the first entry that
throws. Returns the pack and the state reached. -/
def callEach (moved : α → α) : List (Delegate α ρ σ) → α → σ → Except Exn Unit × α × σ
  | [], args, s => (.ok (), args, s)
  | h :: hs, args, s =>
    match h.opCall args s with
    | (.error e, s1) => (.error e, moved args, s1)
    | (.ok _, s1) => callEach moved hs (moved args) s1

end Reference

/-! ## Concrete callables used to instantiate the theorems -/

namespace Example

/-- A plain function at address 4096: adds one to the counter and returns 10. -/
def f : RawFunction Unit Nat Nat :=
  { address := 4096, body := fun _ n => (.ok 10, n + 1) }

/-- A plain function at address 8192: adds two to the counter and returns 20. -/
def g : RawFunction Unit Nat Nat :=
  { address := 8192, body := fun _ n => (.ok 20, n + 2) }

/-- Closure `A`: a lambda that increments the counter and returns 1. A lambda is not a function
pointer, so it has no target; its representation is a parameter. -/
def closureA (bytes : List Nat) : StdFunction Unit Nat Nat :=
  { target := none, bytes := bytes, call := fun _ n => (.ok 1, n + 1) }

/-- Closure `B`: a lambda that increments the counter and returns 2. -/
def closureB (bytes : List Nat) : StdFunction Unit Nat Nat :=
  { target := none, bytes := bytes, call := fun _ n => (.ok 2, n + 1) }

/-- A subscriber that appends its tag to a log and returns the tag. -/
def logger (tag : Nat) : Delegate Unit Nat (List Nat) :=
  Delegate.ofComplexFunction
    { target := none, bytes := [tag], call := fun _ log => (.ok tag, log ++ [tag]) }

/-- A subscriber that appends its tag to a log and then throws. -/
def thrower (tag : Nat) : Delegate Unit Nat (List Nat) :=
  Delegate.ofComplexFunction
    { target := none, bytes := [tag], call := fun _ log => (.error (Exn.thrown tag), log ++ [tag]) }

/-- The wrapper `Delegate(f)`. -/
def df : Delegate Unit Nat Nat := Delegate.ofSimpleFunction f

/-- The wrapper `Delegate(g)`. -/
def dg : Delegate Unit Nat Nat := Delegate.ofSimpleFunction g

/-- The registry after `add(f)`, `add(g)`, `add(f)`. -/
def fgf : MulticastDelegate Unit Nat Nat := { callbacks := [df, dg, df] }

/-- The wrapper of closure `A`. -/
def dA (bytes : List Nat) : Delegate Unit Nat Nat := Delegate.ofComplexFunction (closureA bytes)

/-- The wrapper of closure `B`. -/
def dB (bytes : List Nat) : Delegate Unit Nat Nat := Delegate.ofComplexFunction (closureB bytes)

/-- The registry of the scenario: empty, then `add(A)`, then `add(B)`. -/
def registryAB (bytesA bytesB : List Nat) : MulticastDelegate Unit Nat Nat :=
  (MulticastDelegate.empty.opAddAssignFunction (closureA bytesA)).opAddAssignFunction
    (closureB bytesB)

/-- A subscriber of signature `void(std::vector<int>)` that appends the vector it receives to
a log. -/
def echo : Delegate (List Nat) Unit (List (List Nat)) :=
  Delegate.ofComplexFunction
    { target := none, bytes := [], call := fun v log => (.ok (), log ++ [v]) }

/-- What a move leaves in a `std::vector`: the empty vector. -/
def movedVector : List Nat → List Nat := fun _ => []

end Example

/-! ## Lemmas on the search -/

section SearchLemmas

variable {α ρ σ : Type}

theorem Delegate.copy_eq (d : Delegate α ρ σ) : d.copy = d := rfl

theorem getD_split_mid (pre post : List (Delegate α ρ σ)) (e : Delegate α ρ σ) :
    (pre ++ e :: post).getD ((pre ++ e :: post).length - 1 - post.length) Delegate.empty = e := by
  have h : (pre ++ e :: post).length - 1 - post.length = pre.length := by
    simp only [List.length_append, List.length_cons]; omega
  rw [h, List.getD_eq_getElem?_getD, List.getElem?_append_right (le_refl _)]
  simp

theorem getD_split_post (pre post : List (Delegate α ρ σ)) (e : Delegate α ρ σ) (i : Nat)
    (hi : i < post.length) :
    (pre ++ e :: post).getD ((pre ++ e :: post).length - 1 - i) Delegate.empty ∈ post := by
  have h : (pre ++ e :: post).length - 1 - i = pre.length + 1 + (post.length - 1 - i) := by
    simp only [List.length_append, List.length_cons]; omega
  have hlt : post.length - 1 - i < post.length := by omega
  rw [h, List.getD_eq_getElem?_getD]
  have : (pre ++ e :: post)[pre.length + 1 + (post.length - 1 - i)]? =
      some (post[post.length - 1 - i]) := by
    rw [List.getElem?_append_right (by omega)]
    have h2 : pre.length + 1 + (post.length - 1 - i) - pre.length =
        (post.length - 1 - i) + 1 := by omega
    rw [h2, List.getElem?_cons_succ, List.getElem?_eq_getElem hlt]
  rw [this]
  exact List.getElem_mem _

theorem getD_rev_mem (cb : List (Delegate α ρ σ)) (i : Nat) (hi : i < cb.length) :
    cb.getD (cb.length - 1 - i) Delegate.empty ∈ cb := by
  have hlt : cb.length - 1 - i < cb.length := by omega
  rw [List.getD_eq_getElem?_getD, List.getElem?_eq_getElem hlt]
  exact List.getElem_mem _

/-- The search stops at the first reverse position whose test is true. -/
theorem find_if_hit (pred : Delegate α ρ σ → Except Exn Bool) (cb : List (Delegate α ρ σ))
    (m : Nat) :
    ∀ (n k : Nat), k ≤ m → m < k + n →
      (∀ i, k ≤ i → i < m → pred (cb.getD (cb.length - 1 - i) Delegate.empty) = .ok false) →
      pred (cb.getD (cb.length - 1 - m) Delegate.empty) = .ok true →
      find_if pred cb n k = .ok m := by
  intro n
  induction n with
  | zero => intro k h1 h2; omega
  | succ n ih =>
    intro k h1 h2 hfalse htrue
    by_cases hk : k = m
    · subst hk
      simp only [find_if, htrue]
    · have hlt : k < m := by omega
      have := hfalse k (le_refl k) hlt
      simp only [find_if, this]
      exact ih (k + 1) (by omega) (by omega) (fun i h3 h4 => hfalse i (by omega) h4) htrue

/-- The search reaches `rend()` when every test is false. -/
theorem find_if_miss (pred : Delegate α ρ σ → Except Exn Bool) (cb : List (Delegate α ρ σ)) :
    ∀ (n k : Nat),
      (∀ i, k ≤ i → i < k + n →
        pred (cb.getD (cb.length - 1 - i) Delegate.empty) = .ok false) →
      find_if pred cb n k = .ok (k + n) := by
  intro n
  induction n with
  | zero => intro k _; simp [find_if]
  | succ n ih =>
    intro k hfalse
    have := hfalse k (le_refl k) (by omega)
    simp only [find_if, this]
    rw [ih (k + 1) (fun i h3 h4 => hfalse i (by omega) (by omega))]
    congr 1; omega

/-- The search ends with the exception of the first test that throws. -/
theorem find_if_throw (pred : Delegate α ρ σ → Except Exn Bool) (cb : List (Delegate α ρ σ))
    (m : Nat) (x : Exn) :
    ∀ (n k : Nat), k ≤ m → m < k + n →
      (∀ i, k ≤ i → i < m → pred (cb.getD (cb.length - 1 - i) Delegate.empty) = .ok false) →
      pred (cb.getD (cb.length - 1 - m) Delegate.empty) = .error x →
      find_if pred cb n k = .error x := by
  intro n
  induction n with
  | zero => intro k h1 h2; omega
  | succ n ih =>
    intro k h1 h2 hfalse hthrow
    by_cases hk : k = m
    · subst hk
      simp only [find_if, hthrow]
    · have hlt : k < m := by omega
      have := hfalse k (le_refl k) hlt
      simp only [find_if, this]
      exact ih (k + 1) (by omega) (by omega) (fun i h3 h4 => hfalse i (by omega) h4) hthrow

theorem find_if_split (pred : Delegate α ρ σ → Except Exn Bool)
    (pre post : List (Delegate α ρ σ)) (e : Delegate α ρ σ)
    (he : pred e = .ok true) (hpost : ∀ x ∈ post, pred x = .ok false) :
    find_if pred (pre ++ e :: post) (pre ++ e :: post).length 0 = .ok post.length := by
  apply find_if_hit pred (pre ++ e :: post) post.length
  · omega
  · simp only [List.length_append, List.length_cons]; omega
  · intro i _ hi
    exact hpost _ (getD_split_post pre post e i hi)
  · rw [getD_split_mid]; exact he

theorem find_if_none (pred : Delegate α ρ σ → Except Exn Bool) (cb : List (Delegate α ρ σ))
    (hall : ∀ x ∈ cb, pred x = .ok false) :
    find_if pred cb cb.length 0 = .ok cb.length := by
  have := find_if_miss pred cb cb.length 0
    (fun i _ hi => hall _ (getD_rev_mem cb i (by omega)))
  simpa using this

theorem eraseIdx_split (pre post : List (Delegate α ρ σ)) (e : Delegate α ρ σ) :
    (pre ++ e :: post).eraseIdx ((pre ++ e :: post).length - post.length - 1) = pre ++ post := by
  have h : (pre ++ e :: post).length - post.length - 1 = pre.length := by
    simp only [List.length_append, List.length_cons]; omega
  rw [h, List.eraseIdx_append_of_length_le (le_refl _)]
  simp

/-- A list with an entry whose test is true splits at the last such entry, provided every test
returns. -/
theorem exists_last_match (pred : Delegate α ρ σ → Except Exn Bool) :
    ∀ (cb : List (Delegate α ρ σ)), (∀ x ∈ cb, ∃ b, pred x = .ok b) →
      (∃ x ∈ cb, pred x = .ok true) →
      ∃ pre e post, cb = pre ++ e :: post ∧ pred e = .ok true ∧
        ∀ x ∈ post, pred x = .ok false := by
  intro cb
  induction cb with
  | nil => intro _ h; obtain ⟨x, hx, _⟩ := h; cases hx
  | cons a t ih =>
    intro hret hex
    by_cases ht : ∃ x ∈ t, pred x = .ok true
    · obtain ⟨pre, e, post, h1, h2, h3⟩ :=
        ih (fun x hx => hret x (List.mem_cons_of_mem _ hx)) ht
      exact ⟨a :: pre, e, post, by simp [h1], h2, h3⟩
    · have ha : pred a = .ok true := by
        obtain ⟨x, hx, hp⟩ := hex
        rcases List.mem_cons.mp hx with h | h
        · rw [← h]; exact hp
        · exact absurd ⟨x, h, hp⟩ ht
      refine ⟨[], a, t, rfl, ha, ?_⟩
      intro x hx
      obtain ⟨b, hb⟩ := hret x (List.mem_cons_of_mem _ hx)
      cases b with
      | false => exact hb
      | true => exact absurd ⟨x, hx, hb⟩ ht

end SearchLemmas

/-! ## Lemmas on equality -/

section EqLemmas

variable {α ρ σ : Type}

theorem MemberMethod.memberEq_comm (m n : MemberMethod α ρ σ) : m.opEq n = n.opEq m := by
  unfold MemberMethod.opEq
  by_cases h : n.classId = m.classId
  · have h1 : (m.object == n.object) = (n.object == m.object) := BEq.comm
    have h2 : (m.member == n.member) = (n.member == m.member) := BEq.comm
    rw [if_neg (not_not.mpr h), if_neg (not_not.mpr h.symm), h1, h2]
  · have h2 : ¬ m.classId = n.classId := fun h3 => h h3.symm
    simp [h, h2]

theorem ApplyHack_supported (l r : List Nat) (size : Nat) (h : size = 64 ∨ size = 40) :
    ∃ p, ApplyHack l r size = .ok p := by
  rcases h with h | h <;> subst h <;> simp [ApplyHack]

theorem ApplyHack_unsupported (l r : List Nat) (size : Nat) (h1 : size ≠ 64) (h2 : size ≠ 40) :
    ApplyHack l r size = .error Exn.logic_error := by
  simp [ApplyHack, h1, h2]

theorem ApplyHack_swap (l r : List Nat) (size : Nat) :
    ApplyHack r l size =
      match ApplyHack l r size with
      | .error e => .error e
      | .ok p => .ok (p.2, p.1) := by
  unfold ApplyHack ResetAt
  by_cases h1 : size = 64
  · simp [h1]
  · by_cases h2 : size = 40
    · simp [h2]
    · simp [h1, h2]

theorem AreBoundFounctionsEqual_comm (size : Nat) (l r : StdFunction α ρ σ) :
    AreBoundFounctionsEqual size l r = AreBoundFounctionsEqual size r l := by
  unfold AreBoundFounctionsEqual
  simp only []
  rw [ApplyHack_swap (placementCopy size l) (placementCopy size r) size]
  cases ApplyHack (placementCopy size l) (placementCopy size r) size with
  | error e => rfl
  | ok p =>
    obtain ⟨a, b⟩ := p
    simp only [Except.ok.injEq, decide_eq_decide]
    exact eq_comm

theorem AreFunctionsEqual_comm (size : Nat) (l r : StdFunction α ρ σ) :
    AreFunctionsEqual size l r = AreFunctionsEqual size r l := by
  unfold AreFunctionsEqual
  simp only [Bool.and_comm (GetFunctionTarget l).isNone]
  split
  · exact AreBoundFounctionsEqual_comm size l r
  · simp only [Except.ok.injEq, decide_eq_decide]
    exact eq_comm

/-- `operator==` is symmetric, including in whether it throws. -/
theorem Delegate.opEq_comm (size : Nat) (a b : Delegate α ρ σ) :
    a.opEq size b = b.opEq size a := by
  obtain ⟨as, ac, am⟩ := a
  obtain ⟨bs, bc, bm⟩ := b
  cases as <;> cases bs <;> cases am <;> cases bm <;> cases ac <;> cases bc <;>
    simp [Delegate.opEq, MemberMethod.memberEq_comm, AreFunctionsEqual_comm, eq_comm]

/-- The comparison of two `std::function`s throws only from the byte comparison, on a size
that is not in the table. -/
theorem AreFunctionsEqual_error (size : Nat) (l r : StdFunction α ρ σ) (x : Exn)
    (h : AreFunctionsEqual size l r = .error x) :
    l.target = none ∧ r.target = none ∧ size ≠ 64 ∧ size ≠ 40 := by
  unfold AreFunctionsEqual GetFunctionTarget at h
  cases hl : l.target <;> cases hr : r.target <;> simp [hl, hr] at h
  refine ⟨rfl, rfl, ?_⟩
  by_contra hc
  have hs : size = 64 ∨ size = 40 := by
    by_cases h1 : size = 64
    · exact Or.inl h1
    · right; by_contra h2; exact hc ⟨h1, h2⟩
  obtain ⟨p, hp⟩ := ApplyHack_supported (placementCopy size l) (placementCopy size r) size hs
  simp [AreBoundFounctionsEqual, hp] at h

/-- On two values without a function-pointer target and a size outside the table, the
comparison throws. -/
theorem AreFunctionsEqual_unsupported (size : Nat) (l r : StdFunction α ρ σ)
    (hl : l.target = none) (hr : r.target = none) (h1 : size ≠ 64) (h2 : size ≠ 40) :
    AreFunctionsEqual size l r = .error Exn.logic_error := by
  simp [AreFunctionsEqual, GetFunctionTarget, hl, hr, AreBoundFounctionsEqual,
    ApplyHack_unsupported _ _ size h1 h2]

/-- A true comparison against a value without target was decided by the bytes, on a size in
the table. -/
theorem AreFunctionsEqual_true_supported (size : Nat) (l r : StdFunction α ρ σ)
    (hr : r.target = none) (h : AreFunctionsEqual size l r = .ok true) :
    size = 64 ∨ size = 40 := by
  by_contra hc
  have h1 : size ≠ 64 := fun h3 => hc (Or.inl h3)
  have h2 : size ≠ 40 := fun h3 => hc (Or.inr h3)
  cases hl : l.target with
  | none =>
    rw [AreFunctionsEqual_unsupported size l r hl hr h1 h2] at h
    cases h
  | some t =>
    simp [AreFunctionsEqual, GetFunctionTarget, hl, hr] at h

/-- Where `operator==` throws, both sides hold a `std::function` without target and the size is
not in the table. -/
theorem Delegate.opEq_error (size : Nat) (a b : Delegate α ρ σ) (x : Exn)
    (h : a.opEq size b = .error x) :
    ∃ l r, a.complexFunction = some l ∧ b.complexFunction = some r ∧
      l.target = none ∧ r.target = none ∧ size ≠ 64 ∧ size ≠ 40 := by
  obtain ⟨as, ac, am⟩ := a
  obtain ⟨bs, bc, bm⟩ := b
  cases as <;> cases bs <;> cases am <;> cases bm <;> cases ac <;> cases bc <;>
    simp [Delegate.opEq] at h <;>
    exact ⟨_, _, rfl, rfl, AreFunctionsEqual_error size _ _ x h⟩

/-- Against an argument that holds at most one payload, one true comparison excludes that any
comparison throws. -/
theorem Delegate.opEq_returns (size : Nat) (c e0 : Delegate α ρ σ) (hc : c.populated ≤ 1)
    (h0 : e0.opEq size c = .ok true) (e : Delegate α ρ σ) :
    ∃ b, e.opEq size c = .ok b := by
  cases h : e.opEq size c with
  | ok b => exact ⟨b, rfl⟩
  | error x =>
    exfalso
    obtain ⟨l, r, _, hcr, _, hr, h1, h2⟩ := Delegate.opEq_error size e c x h
    obtain ⟨as, ac, am⟩ := e0
    obtain ⟨bs, bc, bm⟩ := c
    simp only at hcr
    subst hcr
    cases bs <;> cases bm <;> simp [Delegate.populated, Delegate.payloads] at hc
    cases as <;> cases am <;> cases ac <;> simp [Delegate.opEq] at h0
    all_goals
      rcases AreFunctionsEqual_true_supported size _ r hr h0 with h3 | h3
      · exact h1 h3
      · exact h2 h3

end EqLemmas

/-! ## Lemmas on the sweep -/

section SweepLemmas

variable {α ρ σ : Type}

theorem drop_take_succ (cb : List (Delegate α ρ σ)) (i n : Nat) (h : i < cb.length) :
    (cb.drop i).take (n + 1) = cb.getD i Delegate.empty :: (cb.drop (i + 1)).take n := by
  rw [List.drop_eq_getElem_cons h, List.take_succ_cons, List.getD_eq_getElem?_getD,
    List.getElem?_eq_getElem h]
  rfl

/-- The counting loop over the vector is the list recursion over the entries it visits. -/
theorem forLoop_eq_callEach (moved : α → α) (cb : List (Delegate α ρ σ)) :
    ∀ (n i : Nat) (args : α) (s : σ), i + n ≤ cb.length →
      forLoop moved cb n i args s = callEach moved ((cb.drop i).take n) args s := by
  intro n
  induction n with
  | zero => intro i args s _; simp [forLoop, callEach]
  | succ n ih =>
    intro i args s h
    rw [drop_take_succ cb i n (by omega)]
    simp only [forLoop, callEach]
    cases hcall : (cb.getD i Delegate.empty).opCall args s with
    | mk res s1 =>
      cases res with
      | error e => rfl
      | ok v => exact ih (i + 1) (moved args) s1 (by omega)

theorem callEach_append (moved : α → α) (pre post : List (Delegate α ρ σ)) :
    ∀ (args : α) (s : σ),
      callEach moved (pre ++ post) args s =
        match callEach moved pre args s with
        | (.error e, args1, s1) => (.error e, args1, s1)
        | (.ok _, args1, s1) => callEach moved post args1 s1 := by
  induction pre with
  | nil => intro args s; simp [callEach]
  | cons h t ih =>
    intro args s
    simp only [List.cons_append, callEach]
    cases hcall : h.opCall args s with
    | mk res s1 =>
      cases res with
      | error e => rfl
      | ok v => exact ih (moved args) s1

/-- `operator()` on a registry whose last entry is `h`: the entries before it are called in
order and `h` decides the outcome. -/
theorem opCall_snoc (moved : α → α) (hs : List (Delegate α ρ σ)) (h : Delegate α ρ σ)
    (args : α) (s : σ) :
    MulticastDelegate.opCall moved { callbacks := hs ++ [h] } args s =
      match callEach moved hs args s with
      | (.error e, _, s1) => (.error e, s1)
      | (.ok _, args1, s1) => h.opCall args1 s1 := by
  have hlen : (hs ++ [h]).length - 1 = hs.length := by simp
  have hne : ¬ (hs ++ [h]).length = 0 := by simp
  have hlast : (hs ++ [h]).getD hs.length Delegate.empty = h := by
    rw [List.getD_eq_getElem?_getD, List.getElem?_append_right (le_refl _)]
    simp
  have htake : ((hs ++ [h]).drop 0).take hs.length = hs := by simp
  simp only [MulticastDelegate.opCall, hne, if_false, hlen, hlast]
  rw [forLoop_eq_callEach moved (hs ++ [h]) hs.length 0 args s (by simp), htake]

theorem Legacy.opCall_eq (r : MulticastDelegate α ρ σ) (args : α) (s : σ) :
    Legacy.opCall r args s = MulticastDelegate.opCall id r args s := rfl

/-- What `operator-=` does on a registry split at the last entry equal to the argument. -/
theorem opSubAssign_split (size : Nat) (pre post : List (Delegate α ρ σ))
    (e c : Delegate α ρ σ) (he : e.opEq size c = .ok true)
    (hpost : ∀ x ∈ post, x.opEq size c = .ok false) :
    MulticastDelegate.opSubAssign size { callbacks := pre ++ e :: post } c =
      .ok { callbacks := pre ++ post } := by
  have hfind := find_if_split (fun entry => entry.opEq size c) pre post e he hpost
  have hne : post.length ≠ (pre ++ e :: post).length := by
    simp only [List.length_append, List.length_cons]; omega
  simp only [MulticastDelegate.opSubAssign, find, hfind, hne, ne_eq, not_false_eq_true, if_true,
    eraseIdx_split]

theorem Legacy.legacySub_split (size : Nat) (pre post : List (Delegate α ρ σ))
    (e c : Delegate α ρ σ) (he : e.opEq size c = .ok true)
    (hpost : ∀ x ∈ post, x.opEq size c = .ok false) :
    Legacy.opSubAssign size { callbacks := pre ++ e :: post } c =
      .ok { callbacks := pre ++ post } := by
  have hfind := find_if_split (fun other => c.opEq size other) pre post e
    (by show c.opEq size e = _; rw [Delegate.opEq_comm]; exact he)
    (fun x hx => by show c.opEq size x = _; rw [Delegate.opEq_comm]; exact hpost x hx)
  have hne : post.length ≠ (pre ++ e :: post).length := by
    simp only [List.length_append, List.length_cons]; omega
  simp only [Legacy.opSubAssign, hfind, hne, ne_eq, not_false_eq_true, if_true,
    eraseIdx_split]

/-- What `operator-=` does when every comparison returns false. -/
theorem opSubAssign_none (size : Nat) (r : MulticastDelegate α ρ σ) (c : Delegate α ρ σ)
    (hall : ∀ x ∈ r.callbacks, x.opEq size c = .ok false) :
    r.opSubAssign size c = .ok r := by
  have hfind := find_if_none (fun entry => entry.opEq size c) r.callbacks hall
  simp only [MulticastDelegate.opSubAssign, find, hfind, ne_eq, not_true_eq_false, if_false]

theorem Legacy.legacySub_none (size : Nat) (r : MulticastDelegate α ρ σ) (c : Delegate α ρ σ)
    (hall : ∀ x ∈ r.callbacks, x.opEq size c = .ok false) :
    Legacy.opSubAssign size r c = .ok r := by
  have hfind := find_if_none (fun other => c.opEq size other) r.callbacks
    (fun x hx => by show c.opEq size x = _; rw [Delegate.opEq_comm]; exact hall x hx)
  simp only [Legacy.opSubAssign, hfind, ne_eq, not_true_eq_false, if_false]

end SweepLemmas

/-! ## The claims -/

section Claims

variable {α ρ σ : Type}

/-- C1: if some entry of the registry compares equal to `c` (a callable holding at most one
payload, as every constructor builds it), then `remove(c)`, in both versions of
`operator-=`, deletes exactly one entry: the registry splits as `pre ++ e :: post` with `e`
equal to `c` and no entry of `post` equal to `c` (so `e` is the matching entry of greatest
index), and the result is `pre ++ post`, every other entry in its original order. In
particular, after `c` was added twice, removing `c` leaves the registry as it was after the
first add. -/
theorem C1_remove_deletes_last_match (size : Nat) (r : MulticastDelegate α ρ σ)
    (c : Delegate α ρ σ) (hc : c.populated ≤ 1)
    (hex : ∃ e ∈ r.callbacks, e.opEq size c = .ok true) :
    (∃ pre e post, r.callbacks = pre ++ e :: post ∧ e.opEq size c = .ok true ∧
        (∀ x ∈ post, x.opEq size c = .ok false) ∧
        r.opSubAssign size c = .ok { callbacks := pre ++ post } ∧
        Legacy.opSubAssign size r c = .ok { callbacks := pre ++ post }) ∧
      (c.opEq size c = .ok true →
        ((r.opAddAssign c).opAddAssign c).opSubAssign size c = .ok (r.opAddAssign c)) := by
  constructor
  · obtain ⟨e0, hmem, h0⟩ := hex
    obtain ⟨pre, e, post, hsplit, he, hpost⟩ :=
      exists_last_match (fun entry => entry.opEq size c) r.callbacks
        (fun x _ => Delegate.opEq_returns size c e0 hc h0 x) ⟨e0, hmem, h0⟩
    refine ⟨pre, e, post, hsplit, he, hpost, ?_, ?_⟩
    · obtain ⟨cb⟩ := r
      simp only at hsplit
      subst hsplit
      exact opSubAssign_split size pre post e c he hpost
    · obtain ⟨cb⟩ := r
      simp only at hsplit
      subst hsplit
      exact Legacy.legacySub_split size pre post e c he hpost
  · intro hcc
    have := opSubAssign_split size (r.callbacks ++ [c]) [] c c hcc (by simp)
    simpa [MulticastDelegate.opAddAssign, Delegate.copy_eq] using this

/-- An instance of C1: in the registry `[f, g, f]` the entry `f` occurs twice; removing `f`
deletes the second occurrence and leaves `[f, g]`. -/
theorem C1_remove_deletes_last_match_witness :
    Example.df.populated ≤ 1 ∧
      (∃ e ∈ Example.fgf.callbacks, e.opEq 64 Example.df = .ok true) ∧
      (∃ pre e post, Example.fgf.callbacks = pre ++ e :: post ∧
        e.opEq 64 Example.df = .ok true ∧
        (∀ x ∈ post, x.opEq 64 Example.df = .ok false) ∧
        Example.fgf.opSubAssign 64 Example.df = .ok { callbacks := pre ++ post } ∧
        Legacy.opSubAssign 64 Example.fgf Example.df = .ok { callbacks := pre ++ post }) ∧
      Example.fgf.opSubAssign 64 Example.df = .ok { callbacks := [Example.df, Example.dg] } :=
  ⟨by decide, ⟨Example.df, by simp [Example.fgf], rfl⟩,
    (C1_remove_deletes_last_match 64 Example.fgf Example.df (by decide)
      ⟨Example.df, by simp [Example.fgf], rfl⟩).1, rfl⟩

/-- C2: on a registry with entries `hs ++ [h]`, when calling the entries of `hs` once each in
insertion order returns from every one of them (reaching pack `args1` and state `s1`),
`invoke` performs exactly those calls and then returns what the last entry `h` returns there:
the outcome and the final state are those of `h`, the results of the entries of `hs` are
dropped. The same holds for the older `operator()`, which passes each entry a copy of the
pack. -/
theorem C2_invoke_calls_in_order_returns_last (moved : α → α) (hs : List (Delegate α ρ σ))
    (h : Delegate α ρ σ) (args : α) (s : σ) (args1 : α) (s1 : σ)
    (hpre : callEach moved hs args s = (.ok (), args1, s1)) :
    MulticastDelegate.opCall moved { callbacks := hs ++ [h] } args s = h.opCall args1 s1 ∧
      (∀ s2 : σ, callEach id hs args s = (.ok (), args, s2) →
        Legacy.opCall { callbacks := hs ++ [h] } args s = h.opCall args s2) := by
  constructor
  · rw [opCall_snoc, hpre]
  · intro s2 h2
    rw [Legacy.opCall_eq, opCall_snoc, h2]

/-- An instance of C2: three subscribers that log `1`, `2`, `3` and return their tag; the sweep
leaves the log `[1, 2, 3]` and returns `3`. -/
theorem C2_invoke_calls_in_order_returns_last_witness :
    callEach id [Example.logger 1, Example.logger 2] () [] = (.ok (), (), [1, 2]) ∧
      MulticastDelegate.opCall id
        { callbacks := [Example.logger 1, Example.logger 2] ++ [Example.logger 3] } () []
        = (.ok 3, [1, 2, 3]) :=
  ⟨rfl, (C2_invoke_calls_in_order_returns_last id [Example.logger 1, Example.logger 2]
    (Example.logger 3) () [] () [1, 2] rfl).1⟩

/-- C3: when `c == c2` holds, `add(c)` followed by `remove(c2)` gives back the registry as it
was, so with the subscriber count it had before the add (in both versions of the operators). -/
theorem C3_add_then_remove_restores (size : Nat) (r : MulticastDelegate α ρ σ)
    (c c2 : Delegate α ρ σ) (heq : c.opEq size c2 = .ok true) :
    (r.opAddAssign c).opSubAssign size c2 = .ok r ∧
      Legacy.opSubAssign size (Legacy.opAddAssign r c) c2 = .ok r ∧
      ∃ r2, (r.opAddAssign c).opSubAssign size c2 = .ok r2 ∧
        r2.callbacks.length = r.callbacks.length := by
  have h1 : (r.opAddAssign c).opSubAssign size c2 = .ok r := by
    have := opSubAssign_split size r.callbacks [] c c2 heq (by simp)
    simpa [MulticastDelegate.opAddAssign, Delegate.copy_eq] using this
  have h2 : Legacy.opSubAssign size (Legacy.opAddAssign r c) c2 = .ok r := by
    have := Legacy.legacySub_split size r.callbacks [] c c2 heq (by simp)
    simpa [Legacy.opAddAssign, Delegate.copy_eq] using this
  exact ⟨h1, h2, r, h1, rfl⟩

/-- An instance of C3: two separately built wrappers of the plain function `f`. -/
theorem C3_add_then_remove_restores_witness :
    (Delegate.ofSimpleFunction Example.f).opEq 40 (Delegate.ofSimpleFunction Example.f)
        = .ok true ∧
      MulticastDelegate.opSubAssign 40
        (MulticastDelegate.opAddAssign { callbacks := [Delegate.ofSimpleFunction Example.g] }
          (Delegate.ofSimpleFunction Example.f))
        (Delegate.ofSimpleFunction Example.f)
        = .ok { callbacks := [Delegate.ofSimpleFunction Example.g] } :=
  ⟨rfl, (C3_add_then_remove_restores 40 { callbacks := [Delegate.ofSimpleFunction Example.g] }
    (Delegate.ofSimpleFunction Example.f) (Delegate.ofSimpleFunction Example.f) rfl).1⟩

/-- C4, as stated, fails: with a representation size of 32 bytes (not in the table), the
registry `[B]` and the closure `A`, no entry compares equal to `A`, yet `remove(A)` does not
return the registry unchanged: the comparison of `B` with `A` throws `logic_error` and so does
`remove`. -/
theorem C4_remove_no_match_counterexample :
    (Example.dA []).populated = 1 ∧
      (∀ e ∈ ({ callbacks := [Example.dB []] } : MulticastDelegate Unit Nat Nat).callbacks,
        e.opEq 32 (Example.dA []) ≠ .ok true) ∧
      MulticastDelegate.opSubAssign 32 { callbacks := [Example.dB []] } (Example.dA [])
        = .error Exn.logic_error := by
  refine ⟨by decide, ?_, rfl⟩
  intro e he
  simp only [List.mem_singleton] at he
  subst he
  intro h
  cases h

/-- C4, amended: when the comparison of every entry with `c` returns false, `remove(c)` is a
no-op in both versions of `operator-=`: it raises nothing and returns the registry with the
same subscriber sequence, hence the same count. -/
theorem C4_remove_no_match_is_noop (size : Nat) (r : MulticastDelegate α ρ σ)
    (c : Delegate α ρ σ) (hall : ∀ e ∈ r.callbacks, e.opEq size c = .ok false) :
    r.opSubAssign size c = .ok r ∧ Legacy.opSubAssign size r c = .ok r ∧
      ∃ r2, r.opSubAssign size c = .ok r2 ∧ r2.callbacks = r.callbacks ∧
        r2.callbacks.length = r.callbacks.length :=
  ⟨opSubAssign_none size r c hall, Legacy.legacySub_none size r c hall,
    r, opSubAssign_none size r c hall, rfl, rfl⟩

/-- An instance of the amended C4: removing `g` from `[f, f]`, on a size outside the table. -/
theorem C4_remove_no_match_is_noop_witness :
    (∀ e ∈ ({ callbacks := [Example.df, Example.df] } : MulticastDelegate Unit Nat Nat).callbacks,
        e.opEq 32 Example.dg = .ok false) ∧
      MulticastDelegate.opSubAssign 32 { callbacks := [Example.df, Example.df] } Example.dg
        = .ok { callbacks := [Example.df, Example.df] } :=
  ⟨by intro e he; simp at he; subst he; rfl,
    (C4_remove_no_match_is_noop 32 { callbacks := [Example.df, Example.df] } Example.dg
      (by intro e he; simp at he; subst he; rfl)).1⟩

/-- C5: the comparison of two bound-method wrappers never throws, and it returns true exactly
when both wrap a `MemberMethod` of the same class holding the same object handle and the same
member pointer; so two separately built wrappers over one handle and method are equal, a
different handle or method makes them unequal, and wrappers over different classes are
unequal (the result is false, nothing is thrown). -/
theorem C5_bound_method_equality (size : Nat) (class1 object1 member1 : Nat)
    (call1 : Callee α ρ σ) (class2 object2 member2 : Nat) (call2 : Callee α ρ σ) :
    (Delegate.ofObjectMember class1 object1 member1 call1).opEq size
        (Delegate.ofObjectMember class2 object2 member2 call2)
      = .ok (decide (class1 = class2 ∧ object1 = object2 ∧ member1 = member2)) := by
  have h : (Delegate.ofObjectMember class1 object1 member1 call1).opEq size
      (Delegate.ofObjectMember class2 object2 member2 call2)
      = .ok (if class2 ≠ class1 then false else (object1 == object2 && member1 == member2)) :=
    rfl
  rw [h]
  congr 1
  by_cases hc : class2 = class1
  · subst hc
    by_cases ho : object1 = object2 <;> by_cases hm : member1 = member2 <;> simp [ho, hm]
  · have hc2 : ¬ class1 = class2 := fun h3 => hc h3.symm
    simp [hc, hc2]

theorem Delegate.opNe_of_opEq (size : Nat) (a b : Delegate α ρ σ) (v : Bool)
    (h : a.opEq size b = .ok v) : a.opNe size b = .ok (!v) := by
  simp [Delegate.opNe, h]

theorem Delegate.opEq_of_variants_differ (size : Nat) (a b : Delegate α ρ σ) (p q : Payload)
    (ha : a.payloads = [p]) (hb : b.payloads = [q]) (hpq : p ≠ q) :
    a.opEq size b = .ok false := by
  obtain ⟨as, ac, am⟩ := a
  obtain ⟨bs, bc, bm⟩ := b
  cases as <;> cases am <;> cases ac <;> simp [Delegate.payloads] at ha <;>
    cases bs <;> cases bm <;> cases bc <;> simp [Delegate.payloads] at hb <;>
    subst ha <;> subst hb <;> first | exact absurd rfl hpq | rfl

/-- C6: two wrappers that each hold exactly one payload, of different variants, are unequal
in both argument orders: `operator==` returns false and `operator!=` returns true, neither
throws. In particular the wrapper of the plain function `f` and the wrapper of a
`std::function` holding `f` are unequal. -/
theorem C6_cross_variant_never_equal (size : Nat) (a b : Delegate α ρ σ) (p q : Payload)
    (ha : a.payloads = [p]) (hb : b.payloads = [q]) (hpq : p ≠ q) :
    (a.opEq size b = .ok false ∧ a.opNe size b = .ok true ∧
      b.opEq size a = .ok false ∧ b.opNe size a = .ok true) ∧
    (∀ (f : RawFunction α ρ σ) (bytes : List Nat),
      (Delegate.ofSimpleFunction f).opEq size
          (Delegate.ofComplexFunction (StdFunction.ofRawFunction f bytes)) = .ok false ∧
      (Delegate.ofComplexFunction (StdFunction.ofRawFunction f bytes)).opEq size
          (Delegate.ofSimpleFunction f) = .ok false) := by
  have h1 := Delegate.opEq_of_variants_differ size a b p q ha hb hpq
  have h2 := Delegate.opEq_of_variants_differ size b a q p hb ha (Ne.symm hpq)
  exact ⟨⟨h1, Delegate.opNe_of_opEq size a b false h1, h2,
    Delegate.opNe_of_opEq size b a false h2⟩, fun f bytes => ⟨rfl, rfl⟩⟩

/-- An instance of C6: the free-pointer wrapper of `f` against the closure wrapper `A`. -/
theorem C6_cross_variant_never_equal_witness :
    Example.df.payloads = [Payload.FreePointer] ∧
      (Example.dA [1, 2]).payloads = [Payload.Closure] ∧
      Example.df.opEq 32 (Example.dA [1, 2]) = .ok false ∧
      Example.df.opNe 32 (Example.dA [1, 2]) = .ok true ∧
      (Example.dA [1, 2]).opEq 32 Example.df = .ok false ∧
      (Example.dA [1, 2]).opNe 32 Example.df = .ok true :=
  ⟨rfl, rfl, (C6_cross_variant_never_equal 32 Example.df (Example.dA [1, 2])
    Payload.FreePointer Payload.Closure rfl rfl (by decide)).1⟩

/-- C7: on a registry `pre ++ hi :: post`, when the entries of `pre`, called once each in
order, all return (reaching pack `args1` and state `s1`) and the call of `hi` there throws
`x` leaving state `s2`, then `invoke` throws `x` and the final state is `s2`: only the
effects of `pre` in order and of `hi` took place, whatever `post` holds, so no entry after
`hi` was called and no result was returned. The same holds for the older `operator()`. -/
theorem C7_invoke_stops_at_first_throw (moved : α → α) (pre post : List (Delegate α ρ σ))
    (hi : Delegate α ρ σ) (args : α) (s : σ) (args1 : α) (s1 s2 : σ) (x : Exn)
    (hpre : callEach moved pre args s = (.ok (), args1, s1))
    (hthrow : hi.opCall args1 s1 = (.error x, s2)) :
    MulticastDelegate.opCall moved { callbacks := pre ++ hi :: post } args s = (.error x, s2) ∧
      (∀ s3 s4 : σ, callEach id pre args s = (.ok (), args, s3) →
        hi.opCall args s3 = (.error x, s4) →
        Legacy.opCall { callbacks := pre ++ hi :: post } args s = (.error x, s4)) := by
  have key : ∀ (mv : α → α) (a1 : α) (t1 t2 : σ),
      callEach mv pre args s = (.ok (), a1, t1) → hi.opCall a1 t1 = (.error x, t2) →
      MulticastDelegate.opCall mv { callbacks := pre ++ hi :: post } args s
        = (.error x, t2) := by
    intro mv a1 t1 t2 h1 h2
    rcases List.eq_nil_or_concat post with hnil | ⟨init, last, hlast⟩
    · subst hnil
      rw [opCall_snoc, h1]
      exact h2
    · have hre : pre ++ hi :: post = (pre ++ hi :: init) ++ [last] := by
        rw [hlast]; simp
      rw [hre, opCall_snoc, callEach_append, h1]
      simp only [callEach, h2]
  exact ⟨key moved args1 s1 s2 hpre hthrow, fun s3 s4 h3 h4 => key id args s3 s4 h3 h4⟩

/-- An instance of C7: the registry `[logger 1, thrower 2, logger 3]`; the sweep throws the
exception of the second entry and the log is `[1, 2]`. -/
theorem C7_invoke_stops_at_first_throw_witness :
    callEach id [Example.logger 1] () [] = (.ok (), (), [1]) ∧
      (Example.thrower 2).opCall () [1] = (.error (Exn.thrown 2), [1, 2]) ∧
      MulticastDelegate.opCall id
        { callbacks := [Example.logger 1] ++ Example.thrower 2 :: [Example.logger 3] } () []
        = (.error (Exn.thrown 2), [1, 2]) :=
  ⟨rfl, rfl, (C7_invoke_stops_at_first_throw id [Example.logger 1] [Example.logger 3]
    (Example.thrower 2) () [] () [1] [1, 2] (Exn.thrown 2) rfl rfl).1⟩

/-- C8: invoking a registry with zero entries throws `bad_function_call` for every argument
pack and leaves the state as it was (no callable ran); `operator()` only reads `callbacks`,
so the registry is still the empty one. Both versions of `operator()`. -/
theorem C8_invoke_empty_registry (moved : α → α) (args : α) (s : σ) :
    MulticastDelegate.opCall moved (MulticastDelegate.empty : MulticastDelegate α ρ σ) args s
        = (.error Exn.bad_function_call, s) ∧
      Legacy.opCall (MulticastDelegate.empty : MulticastDelegate α ρ σ) args s
        = (.error Exn.bad_function_call, s) :=
  ⟨rfl, rfl⟩

/-- C9: invoking the wrapper built from a plain function `f` gives, for every argument pack and
state, the result and the state that calling `f` gives. -/
theorem C9_free_function_wrapper_invokes_f (f : RawFunction α ρ σ) (args : α) (s : σ) :
    (Delegate.ofSimpleFunction f).opCall args s = f.body args s := rfl

theorem AreBoundFounctionsEqual_self (size : Nat) (l : StdFunction α ρ σ)
    (h : size = 64 ∨ size = 40) : AreBoundFounctionsEqual size l l = .ok true := by
  rcases h with h | h <;> subst h <;> simp [AreBoundFounctionsEqual, ApplyHack, ResetAt]

/-- A closure without target compares equal to itself as soon as some comparison of two such
closures returns at all. -/
theorem Delegate.opEq_closure_self (size : Nat) (l r : StdFunction α ρ σ) (v : Bool)
    (hl : l.target = none) (hr : r.target = none)
    (h : (Delegate.ofComplexFunction l).opEq size (Delegate.ofComplexFunction r) = .ok v) :
    (Delegate.ofComplexFunction r).opEq size (Delegate.ofComplexFunction r) = .ok true := by
  have hs : size = 64 ∨ size = 40 := by
    by_contra hc
    have h1 : size ≠ 64 := fun h3 => hc (Or.inl h3)
    have h2 : size ≠ 40 := fun h3 => hc (Or.inr h3)
    have h3 : (Delegate.ofComplexFunction l).opEq size (Delegate.ofComplexFunction r)
        = AreFunctionsEqual size l r := rfl
    rw [h3, AreFunctionsEqual_unsupported size l r hl hr h1 h2] at h
    cases h
  have h4 : (Delegate.ofComplexFunction r).opEq size (Delegate.ofComplexFunction r)
      = AreFunctionsEqual size r r := rfl
  rw [h4]
  simp [AreFunctionsEqual, GetFunctionTarget, hr, AreBoundFounctionsEqual_self size r hs]

/-- C10, as stated, fails: with a representation size of 32 bytes the first invoke of the
scenario returns 2 with the counter at 2, but `remove(A)` throws `logic_error` instead of
leaving `[B]`, whatever the representations of `A` and `B` (here `[1]` and `[2]`). -/
theorem C10_scenario_counterexample :
    (Example.registryAB [1] [2]).opCall id () 0 = (.ok 2, 2) ∧
      (Example.registryAB [1] [2]).opSubAssignFunction 32 (Example.closureA [1])
        = .error Exn.logic_error :=
  ⟨rfl, rfl⟩

/-- C10, amended: after `remove(c)` deleted the entry `e` of `pre ++ e :: post` (`e` equal to
`c`, no entry of `post` equal to `c`), the registry holds `pre ++ post` and an invoke calls
those entries in order and returns what the last of them returns. In the scenario (closures
`A`, `B` added to an empty registry, counter at 0), provided the comparison of `B` with `A`
returns false: the first invoke returns 2 and leaves the counter at 2, `remove(A)` returns
the registry `[B]`, and the second invoke returns 2 and leaves the counter at 3. -/
theorem C10_invoke_after_remove (size : Nat) (moved : α → α) (pre post : List (Delegate α ρ σ))
    (e c : Delegate α ρ σ) (he : e.opEq size c = .ok true)
    (hpost : ∀ x ∈ post, x.opEq size c = .ok false) :
    (∃ r2, MulticastDelegate.opSubAssign size { callbacks := pre ++ e :: post } c = .ok r2 ∧
      r2.callbacks = pre ++ post ∧
      ∀ (hs : List (Delegate α ρ σ)) (h : Delegate α ρ σ) (args : α) (s : σ) (args1 : α)
        (s1 : σ), pre ++ post = hs ++ [h] → callEach moved hs args s = (.ok (), args1, s1) →
        r2.opCall moved args s = h.opCall args1 s1) ∧
    (∀ bytesA bytesB : List Nat,
      (Example.dB bytesB).opEq size (Example.dA bytesA) = .ok false →
      (Example.registryAB bytesA bytesB).opCall id () 0 = (.ok 2, 2) ∧
      ∃ r3, (Example.registryAB bytesA bytesB).opSubAssignFunction size
            (Example.closureA bytesA) = .ok r3 ∧
        r3.callbacks = [Example.dB bytesB] ∧ r3.opCall id () 2 = (.ok 2, 3)) := by
  constructor
  · refine ⟨{ callbacks := pre ++ post }, opSubAssign_split size pre post e c he hpost, rfl, ?_⟩
    intro hs h args s args1 s1 hsplit hrun
    rw [hsplit, opCall_snoc, hrun]
  · intro bytesA bytesB hBA
    refine ⟨rfl, { callbacks := [Example.dB bytesB] }, ?_, rfl, rfl⟩
    have hAA : (Example.dA bytesA).opEq size (Example.dA bytesA) = .ok true :=
      Delegate.opEq_closure_self size (Example.closureB bytesB) (Example.closureA bytesA) false
        rfl rfl hBA
    have := opSubAssign_split size [] [Example.dB bytesB] (Example.dA bytesA)
      (Example.dA bytesA) hAA (by intro x hx; simp at hx; subst hx; exact hBA)
    exact this

/-- An instance of the amended C10: size 64, representations `[1]` and `[2]` (they differ at
offset 0, which is not masked). -/
theorem C10_invoke_after_remove_witness :
    (Example.dA [1]).opEq 64 (Example.dA [1]) = .ok true ∧
      (Example.dB [2]).opEq 64 (Example.dA [1]) = .ok false ∧
      (∃ r2, MulticastDelegate.opSubAssign 64
          { callbacks := [] ++ Example.dA [1] :: [Example.dB [2]] } (Example.dA [1]) = .ok r2 ∧
        r2.callbacks = [] ++ [Example.dB [2]] ∧
        r2.opCall id () 2 = (Example.dB [2]).opCall () 2) ∧
      ((Example.registryAB [1] [2]).opCall id () 0 = (.ok 2, 2) ∧
        ∃ r3, (Example.registryAB [1] [2]).opSubAssignFunction 64 (Example.closureA [1])
            = .ok r3 ∧
          r3.callbacks = [Example.dB [2]] ∧ r3.opCall id () 2 = (.ok 2, 3)) :=
  have hAA : (Example.dA [1]).opEq 64 (Example.dA [1]) = .ok true := rfl
  have hBA : (Example.dB [2]).opEq 64 (Example.dA [1]) = .ok false := rfl
  have hpost : ∀ x ∈ [Example.dB [2]], x.opEq 64 (Example.dA [1]) = .ok false := by
    intro x hx; simp at hx; subst hx; exact hBA
  have main := C10_invoke_after_remove 64 id [] [Example.dB [2]] (Example.dA [1])
    (Example.dA [1]) hAA hpost
  ⟨hAA, hBA,
    (let ⟨r2, h1, h2, h3⟩ := main.1
     ⟨r2, h1, h2, h3 [] (Example.dB [2]) () 2 () 2 rfl rfl⟩),
    main.2 [1] [2] hBA⟩

/-- C11: for two closure wrappers of which at least one exposes a function-pointer target,
`operator==` returns, without throwing, whether the two targets are the same value; that is
true exactly when both expose a target and the two pointers are identical. The bytes and the
size play no part: the byte comparison is not reached. -/
theorem C11_closure_equality_by_targets (size : Nat) (l r : StdFunction α ρ σ)
    (h : l.target.isSome = true ∨ r.target.isSome = true) :
    (Delegate.ofComplexFunction l).opEq size (Delegate.ofComplexFunction r)
        = .ok (decide (l.target = r.target)) ∧
      (decide (l.target = r.target) = true ↔ ∃ t, l.target = some t ∧ r.target = some t) ∧
      (∀ (size2 : Nat) (bytesL bytesR : List Nat),
        (Delegate.ofComplexFunction { l with bytes := bytesL }).opEq size2
            (Delegate.ofComplexFunction { r with bytes := bytesR })
          = (Delegate.ofComplexFunction l).opEq size (Delegate.ofComplexFunction r)) := by
  have key : ∀ (sz : Nat) (bl br : List Nat),
      (Delegate.ofComplexFunction { l with bytes := bl }).opEq sz
          (Delegate.ofComplexFunction { r with bytes := br })
        = .ok (decide (l.target = r.target)) := by
    intro sz bl br
    show AreFunctionsEqual sz { l with bytes := bl } { r with bytes := br } = _
    cases hl : l.target <;> cases hr : r.target <;>
      simp [AreFunctionsEqual, GetFunctionTarget, hl, hr] at h ⊢
  refine ⟨key size l.bytes r.bytes, ?_, fun size2 bl br => ?_⟩
  · cases hl : l.target <;> cases hr : r.target <;> simp [hl, hr] at h ⊢
    exact eq_comm
  · rw [key size2 bl br]
    exact (key size l.bytes r.bytes).symm

/-- An instance of C11: a closure holding the plain function `f` against the lambda `A`. -/
theorem C11_closure_equality_by_targets_witness :
    (Delegate.ofComplexFunction (StdFunction.ofRawFunction Example.f [7])).opEq 32
        (Example.dA [7]) = .ok false ∧
      (Delegate.ofComplexFunction (StdFunction.ofRawFunction Example.f [7])).opEq 32
        (Delegate.ofComplexFunction (StdFunction.ofRawFunction Example.f [9])) = .ok true :=
  ⟨(C11_closure_equality_by_targets 32 (StdFunction.ofRawFunction Example.f [7])
      (Example.closureA [7]) (Or.inl rfl)).1,
    (C11_closure_equality_by_targets 32 (StdFunction.ofRawFunction Example.f [7])
      (StdFunction.ofRawFunction Example.f [9]) (Or.inl rfl)).1⟩

/-- C12: for two closure wrappers neither of which exposes a function-pointer target,
`operator==` throws the `logic_error` of `ApplyHack` exactly when the size is neither 64 nor
40; for these two sizes it returns a boolean. -/
theorem C12_unsupported_size_throws (size : Nat) (l r : StdFunction α ρ σ)
    (hl : l.target = none) (hr : r.target = none) :
    ((Delegate.ofComplexFunction l).opEq size (Delegate.ofComplexFunction r)
        = .error Exn.logic_error ↔ size ≠ 64 ∧ size ≠ 40) ∧
      ((∃ x, (Delegate.ofComplexFunction l).opEq size (Delegate.ofComplexFunction r)
        = .error x) ↔ ¬ (size = 64 ∨ size = 40)) ∧
      (size = 64 ∨ size = 40 →
        ∃ b, (Delegate.ofComplexFunction l).opEq size (Delegate.ofComplexFunction r)
          = .ok b) := by
  have hdef : (Delegate.ofComplexFunction l).opEq size (Delegate.ofComplexFunction r)
      = AreFunctionsEqual size l r := rfl
  have hsupp : size = 64 ∨ size = 40 → ∃ b, AreFunctionsEqual size l r = .ok b := by
    intro hs
    obtain ⟨p, hp⟩ := ApplyHack_supported (placementCopy size l) (placementCopy size r) size hs
    exact ⟨decide (p.1 = p.2), by
      simp [AreFunctionsEqual, GetFunctionTarget, hl, hr, AreBoundFounctionsEqual, hp]⟩
  rw [hdef]
  refine ⟨⟨fun h => ?_, fun h => ?_⟩, ⟨fun h => ?_, fun h => ?_⟩, hsupp⟩
  · exact (AreFunctionsEqual_error size l r _ h).2.2
  · exact AreFunctionsEqual_unsupported size l r hl hr h.1 h.2
  · obtain ⟨x, hx⟩ := h
    intro hs
    obtain ⟨b, hb⟩ := hsupp hs
    rw [hb] at hx
    cases hx
  · exact ⟨Exn.logic_error, AreFunctionsEqual_unsupported size l r hl hr
      (fun h1 => h (Or.inl h1)) (fun h2 => h (Or.inr h2))⟩

/-- An instance of C12: the lambdas `A` and `B` at sizes 32 and 40. -/
theorem C12_unsupported_size_throws_witness :
    (Example.dA [1]).opEq 32 (Example.dB [2]) = .error Exn.logic_error ∧
      ∃ b, (Example.dA [1]).opEq 40 (Example.dB [2]) = .ok b :=
  ⟨(C12_unsupported_size_throws 32 (Example.closureA [1]) (Example.closureB [2]) rfl rfl).1.mpr
      (by decide),
    (C12_unsupported_size_throws 40 (Example.closureA [1]) (Example.closureB [2]) rfl rfl).2.2
      (Or.inr rfl)⟩

/-- C13, as stated, fails: the public default constructor `Delegate()` builds a wrapper with
no payload populated. -/
theorem C13_default_constructor_counterexample :
    Delegate.Constructible (Delegate.empty : Delegate Unit Nat Nat) ∧
      (Delegate.empty : Delegate Unit Nat Nat).populated = 0 ∧
      (Delegate.empty : Delegate Unit Nat Nat).payloads = [] :=
  ⟨Delegate.Constructible.default, rfl, rfl⟩

/-- C13, amended: every wrapper that the public constructors, copy construction and
assignment can produce has at most one payload populated. The constructors from a free
function, from a closure value and from an object handle with a member pointer populate
exactly one; the default constructor populates none; copy construction and assignment give
the populated payloads of their source (of the object itself for an assignment to itself). -/
theorem C13_at_most_one_payload (d : Delegate α ρ σ) (hd : d.Constructible) :
    d.populated ≤ 1 ∧
      (∀ f : RawFunction α ρ σ, (Delegate.ofSimpleFunction f).payloads = [Payload.FreePointer]) ∧
      (∀ c : StdFunction α ρ σ, (Delegate.ofComplexFunction c).payloads = [Payload.Closure]) ∧
      (∀ (classId object member : Nat) (call : Callee α ρ σ),
        (Delegate.ofObjectMember classId object member call).payloads
          = [Payload.BoundMethod]) ∧
      (Delegate.empty : Delegate α ρ σ).payloads = [] ∧
      (∀ e : Delegate α ρ σ, e.copy.payloads = e.payloads) ∧
      (∀ e other : Delegate α ρ σ, (e.opAssign other false).payloads = other.payloads) ∧
      (∀ e : Delegate α ρ σ, (e.opAssign e true).payloads = e.payloads) := by
  refine ⟨?_, fun _ => rfl, fun _ => rfl, fun _ _ _ _ => rfl, rfl, fun _ => rfl,
    fun _ _ => rfl, fun _ => rfl⟩
  induction hd with
  | default => simp [Delegate.populated, Delegate.payloads, Delegate.empty]
  | memberMethod m =>
    cases m <;> simp [Delegate.populated, Delegate.payloads, Delegate.ofMemberMethod]
  | simpleFunction f => simp [Delegate.populated, Delegate.payloads, Delegate.ofSimpleFunction]
  | complexFunction c => simp [Delegate.populated, Delegate.payloads, Delegate.ofComplexFunction]
  | objectMember classId object member call =>
    simp [Delegate.populated, Delegate.payloads, Delegate.ofObjectMember,
      Delegate.ofMemberMethod]
  | copy d _ ih => exact ih
  | assign d other _ _ _ ih2 => exact ih2
  | assignSelf d _ ih => exact ih

/-- An instance of the amended C13: a wrapper of `f`, copied and then assigned over a
default-constructed wrapper. -/
theorem C13_at_most_one_payload_witness :
    Delegate.Constructible (Delegate.empty.opAssign Example.df.copy false) ∧
      (Delegate.empty.opAssign Example.df.copy false).populated ≤ 1 :=
  ⟨Delegate.Constructible.assign _ _ Delegate.Constructible.default
      (Delegate.Constructible.copy _ (Delegate.Constructible.simpleFunction Example.f)),
    (C13_at_most_one_payload (Delegate.empty.opAssign Example.df.copy false)
      (Delegate.Constructible.assign _ _ Delegate.Constructible.default
        (Delegate.Constructible.copy _ (Delegate.Constructible.simpleFunction Example.f)))).1⟩

/-- C14, the code at the failing input: in `Platform.Delegates.MulticastDelegate.h` all three
forms of `operator+=` append one entry wrapping the callable, and so do the wrapper and
free-function forms of the older `MulticastDelegate.h`; but the closure form of the older
file returns the registry as it was: on `[f, g, f]` adding closure `A` leaves three entries,
where the newer file leaves `[f, g, f, A]`. -/
theorem C14_legacy_closure_add_is_dropped :
    (∀ (r : MulticastDelegate α ρ σ) (c : Delegate α ρ σ) (f : RawFunction α ρ σ)
        (k : StdFunction α ρ σ),
      (r.opAddAssign c).callbacks = r.callbacks ++ [c] ∧
      (r.opAddAssignRaw f).callbacks = r.callbacks ++ [Delegate.ofSimpleFunction f] ∧
      (r.opAddAssignFunction k).callbacks = r.callbacks ++ [Delegate.ofComplexFunction k] ∧
      (Legacy.opAddAssign r c).callbacks = r.callbacks ++ [c] ∧
      (Legacy.opAddAssignRaw r f).callbacks = r.callbacks ++ [Delegate.ofSimpleFunction f] ∧
      Legacy.opAddAssignFunction r k = r) ∧
    (Legacy.opAddAssignFunction Example.fgf (Example.closureA [1])).callbacks
      = [Example.df, Example.dg, Example.df] ∧
    (Example.fgf.opAddAssignFunction (Example.closureA [1])).callbacks
      = [Example.df, Example.dg, Example.df, Example.dA [1]] :=
  ⟨fun _ _ _ _ => ⟨rfl, rfl, rfl, rfl, rfl, rfl⟩, rfl, rfl⟩

/-- C15: invoking a wrapper with no payload populated throws `bad_function_call` for every
argument pack and leaves the state untouched (nothing was called); a wrapper with a payload
populated does exactly what that payload does when called (the first populated one in the
order free pointer, bound method, closure), so an exception can only come from the payload. -/
theorem C15_empty_wrapper_throws (d : Delegate α ρ σ) (args : α) (s : σ) :
    (d.payloads = [] → d.opCall args s = (.error Exn.bad_function_call, s)) ∧
      (∀ f, d.simpleFunction = some f → d.opCall args s = f.body args s) ∧
      (∀ m, d.simpleFunction = none → d.memberMethod = some m →
        d.opCall args s = m.call args s) ∧
      (∀ c, d.simpleFunction = none → d.memberMethod = none → d.complexFunction = some c →
        d.opCall args s = c.call args s) := by
  obtain ⟨ds, dc, dm⟩ := d
  refine ⟨?_, ?_, ?_, ?_⟩
  · intro h
    cases ds <;> cases dm <;> cases dc <;> simp [Delegate.payloads] at h
    rfl
  · intro f h
    simp only at h
    subst h
    rfl
  · intro m h1 h2
    simp only at h1 h2
    subst h1
    subst h2
    rfl
  · intro c h1 h2 h3
    simp only at h1 h2 h3
    subst h1
    subst h2
    subst h3
    rfl

/-- An instance of C15: the default-constructed wrapper, the wrapper of `f`, a bound-method
wrapper and the wrapper of closure `A`. -/
theorem C15_empty_wrapper_throws_witness :
    (Delegate.empty : Delegate Unit Nat Nat).opCall () 5 = (.error Exn.bad_function_call, 5) ∧
      Example.df.opCall () 5 = (.ok 10, 6) ∧
      (Delegate.ofObjectMember 1 2 3 Example.g.body).opCall () 5 = (.ok 20, 7) ∧
      (Example.dA []).opCall () 5 = (.ok 1, 6) :=
  ⟨(C15_empty_wrapper_throws (Delegate.empty : Delegate Unit Nat Nat) () 5).1 rfl,
    (C15_empty_wrapper_throws Example.df () 5).2.1 Example.f rfl,
    (C15_empty_wrapper_throws (Delegate.ofObjectMember 1 2 3 Example.g.body) () 5).2.2.1
      { classId := 1, object := 2, member := 3, call := Example.g.body } rfl rfl,
    (C15_empty_wrapper_throws (Example.dA []) () 5).2.2.2 (Example.closureA []) rfl rfl rfl⟩

/-- C16: for two distinct registries at addresses `a` and `b`, copy-assigning `b` into `a`
and copy-assigning `a` into `b` (and likewise copy-constructing) perform the same first two
operations: lock the mutex of the registry at the smaller address, then the mutex of the one
at the larger address. The vector is copied next, while both are held, and the locks are
released afterwards. The destination then holds the sequence of the source, which is only
read. -/
theorem C16_copy_locks_in_address_order (a b : Nat) (ra rb : MulticastDelegate α ρ σ)
    (hab : a ≠ b) :
    (MulticastDelegate.opAssign a b ra rb).1
        = [Event.lock (min a b), Event.lock (max a b), Event.copyCallbacks a b,
            Event.unlock (max a b), Event.unlock (min a b)] ∧
      (MulticastDelegate.opAssign b a rb ra).1
        = [Event.lock (min a b), Event.lock (max a b), Event.copyCallbacks b a,
            Event.unlock (max a b), Event.unlock (min a b)] ∧
      (MulticastDelegate.copyConstruct a b rb).1
        = [Event.lock (min a b), Event.lock (max a b), Event.copyCallbacks a b,
            Event.unlock (max a b), Event.unlock (min a b)] ∧
      heldAfter [Event.lock (min a b), Event.lock (max a b)] [] = [max a b, min a b] ∧
      heldAfter (MulticastDelegate.opAssign a b ra rb).1 [] = [] ∧
      (MulticastDelegate.opAssign a b ra rb).2.callbacks = rb.callbacks ∧
      (MulticastDelegate.opAssign b a rb ra).2.callbacks = ra.callbacks ∧
      (MulticastDelegate.copyConstruct a b rb).2.callbacks = rb.callbacks := by
  have hcopy : ∀ l : List (Delegate α ρ σ), l.map Delegate.copy = l := by
    intro l
    have : (Delegate.copy : Delegate α ρ σ → Delegate α ρ σ) = id := funext Delegate.copy_eq
    rw [this, List.map_id]
  have hba : b ≠ a := fun h => hab h.symm
  rcases Nat.lt_or_gt_of_ne hab with hlt | hgt
  · have h1 : min a b = a := Nat.min_eq_left (le_of_lt hlt)
    have h2 : max a b = b := Nat.max_eq_right (le_of_lt hlt)
    have h3 : ¬ b < a := not_lt.mpr (le_of_lt hlt)
    simp [MulticastDelegate.opAssign, MulticastDelegate.copyConstruct,
      MulticastDelegate.CopyCallbacks, MulticastDelegate.CopyCallbacksUnsync, heldAfter,
      hab, hba, hlt, h1, h2, h3, hcopy]
  · have h1 : min a b = b := Nat.min_eq_right (le_of_lt hgt)
    have h2 : max a b = a := Nat.max_eq_left (le_of_lt hgt)
    have h3 : ¬ a < b := not_lt.mpr (le_of_lt hgt)
    have h4 : b < a := hgt
    simp [MulticastDelegate.opAssign, MulticastDelegate.copyConstruct,
      MulticastDelegate.CopyCallbacks, MulticastDelegate.CopyCallbacksUnsync, heldAfter,
      hab, hba, h4, h1, h2, h3, hcopy]

/-- An instance of C16: registries at addresses 4000 and 1000. -/
theorem C16_copy_locks_in_address_order_witness :
    (MulticastDelegate.opAssign 4000 1000 Example.fgf (Example.registryAB [1] [2])).1
        = [Event.lock 1000, Event.lock 4000, Event.copyCallbacks 4000 1000,
            Event.unlock 4000, Event.unlock 1000] ∧
      (MulticastDelegate.opAssign 1000 4000 (Example.registryAB [1] [2]) Example.fgf).1
        = [Event.lock 1000, Event.lock 4000, Event.copyCallbacks 1000 4000,
            Event.unlock 4000, Event.unlock 1000] :=
  ⟨(C16_copy_locks_in_address_order 4000 1000 Example.fgf (Example.registryAB [1] [2])
      (by decide)).1,
    (C16_copy_locks_in_address_order 4000 1000 Example.fgf (Example.registryAB [1] [2])
      (by decide)).2.1⟩

theorem getD_placementCopy (size : Nat) (f : StdFunction α ρ σ) (i : Nat) (hi : i < size) :
    (placementCopy size f)[i]? = some (f.bytes.getD i 0) := by
  simp [placementCopy, List.getElem?_range hi]

theorem length_placementCopy (size : Nat) (f : StdFunction α ρ σ) :
    (placementCopy size f).length = size := by
  simp [placementCopy]

/-- Two buffers of the same length with three offsets reset are equal exactly when they agree
at every other offset. -/
theorem reset3_eq_iff (xs ys : List Nat) (n a b c : Nat) (hx : xs.length = n)
    (hy : ys.length = n) :
    ((xs.set a 0).set b 0).set c 0 = ((ys.set a 0).set b 0).set c 0 ↔
      ∀ i, i < n → i ≠ a → i ≠ b → i ≠ c → xs[i]? = ys[i]? := by
  constructor
  · intro h i _ ha hb hc
    have h2 := congrArg (fun L : List Nat => L[i]?) h
    simp only [List.getElem?_set_ne (Ne.symm hc), List.getElem?_set_ne (Ne.symm hb),
      List.getElem?_set_ne (Ne.symm ha)] at h2
    exact h2
  · intro h
    apply List.ext_getElem?
    intro i
    by_cases hi : i < n
    · simp only [List.getElem?_set, List.length_set, hx, hy]
      by_cases hc : c = i
      · simp [hc]
      · by_cases hb : b = i
        · simp [hc, hb]
        · by_cases ha : a = i
          · simp [hc, hb, ha]
          · simp only [hc, hb, ha, if_false]
            exact h i hi (Ne.symm ha) (Ne.symm hb) (Ne.symm hc)
    · have h1 : (((xs.set a 0).set b 0).set c 0).length ≤ i := by simp [hx]; omega
      have h2 : (((ys.set a 0).set b 0).set c 0).length ≤ i := by simp [hy]; omega
      rw [List.getElem?_eq_none h1, List.getElem?_eq_none h2]

theorem AreBound_64_iff (l r : StdFunction α ρ σ) :
    ∃ b, AreBoundFounctionsEqual 64 l r = .ok b ∧
      (b = true ↔ ∀ i, i < 64 → i ≠ 16 → i ≠ 56 → i ≠ 57 →
        l.bytes.getD i 0 = r.bytes.getD i 0) := by
  refine ⟨_, rfl, ?_⟩
  simp only [ResetAt, decide_eq_true_eq]
  rw [reset3_eq_iff _ _ 64 16 56 57 (length_placementCopy 64 l) (length_placementCopy 64 r)]
  constructor
  · intro h i hi h1 h2 h3
    have := h i hi h1 h2 h3
    rw [getD_placementCopy 64 l i hi, getD_placementCopy 64 r i hi] at this
    exact Option.some.inj this
  · intro h i hi h1 h2 h3
    rw [getD_placementCopy 64 l i hi, getD_placementCopy 64 r i hi, h i hi h1 h2 h3]

theorem AreBound_40_iff (l r : StdFunction α ρ σ) :
    ∃ b, AreBoundFounctionsEqual 40 l r = .ok b ∧
      (b = true ↔ ∀ i, i < 40 → i ≠ 8 → i ≠ 16 → i ≠ 36 →
        l.bytes.getD i 0 = r.bytes.getD i 0) := by
  refine ⟨_, rfl, ?_⟩
  simp only [ResetAt, decide_eq_true_eq]
  rw [reset3_eq_iff _ _ 40 8 16 36 (length_placementCopy 40 l) (length_placementCopy 40 r)]
  constructor
  · intro h i hi h1 h2 h3
    have := h i hi h1 h2 h3
    rw [getD_placementCopy 40 l i hi, getD_placementCopy 40 r i hi] at this
    exact Option.some.inj this
  · intro h i hi h1 h2 h3
    rw [getD_placementCopy 40 l i hi, getD_placementCopy 40 r i hi, h i hi h1 h2 h3]

theorem getD_set_ne (xs : List Nat) (m v i : Nat) (h : i ≠ m) :
    (xs.set m v).getD i 0 = xs.getD i 0 := by
  simp only [List.getD_eq_getElem?_getD, List.getElem?_set_ne (Ne.symm h)]

/-- C17: for size 64 the byte comparison returns true exactly when the two representations
agree at every offset below 64 other than 16, 56 and 57, and for size 40 exactly when they
agree at every offset below 40 other than 8, 16 and 36. A byte at one of these masked offsets,
in either representation, does not influence the result, and each masked offset lies inside the
buffer. -/
theorem C17_byte_comparison_masks (l r : StdFunction α ρ σ) :
    (∃ b, AreBoundFounctionsEqual 64 l r = .ok b ∧
      (b = true ↔ ∀ i, i < 64 → i ≠ 16 → i ≠ 56 → i ≠ 57 →
        l.bytes.getD i 0 = r.bytes.getD i 0)) ∧
    (∃ b, AreBoundFounctionsEqual 40 l r = .ok b ∧
      (b = true ↔ ∀ i, i < 40 → i ≠ 8 → i ≠ 16 → i ≠ 36 →
        l.bytes.getD i 0 = r.bytes.getD i 0)) ∧
    (∀ m v, m ∈ [16, 56, 57] →
      AreBoundFounctionsEqual 64 { l with bytes := l.bytes.set m v } r
        = AreBoundFounctionsEqual 64 l r ∧
      AreBoundFounctionsEqual 64 l { r with bytes := r.bytes.set m v }
        = AreBoundFounctionsEqual 64 l r) ∧
    (∀ m v, m ∈ [8, 16, 36] →
      AreBoundFounctionsEqual 40 { l with bytes := l.bytes.set m v } r
        = AreBoundFounctionsEqual 40 l r ∧
      AreBoundFounctionsEqual 40 l { r with bytes := r.bytes.set m v }
        = AreBoundFounctionsEqual 40 l r) ∧
    (∀ m, m ∈ [16, 56, 57] → m < (placementCopy 64 l).length) ∧
    (∀ m, m ∈ [8, 16, 36] → m < (placementCopy 40 l).length) := by
  have same64 : ∀ (l1 r1 l2 r2 : StdFunction α ρ σ),
      (∀ i, i < 64 → i ≠ 16 → i ≠ 56 → i ≠ 57 →
        l1.bytes.getD i 0 = l2.bytes.getD i 0 ∧ r1.bytes.getD i 0 = r2.bytes.getD i 0) →
      AreBoundFounctionsEqual 64 l1 r1 = AreBoundFounctionsEqual 64 l2 r2 := by
    intro l1 r1 l2 r2 h
    obtain ⟨b1, hb1, i1⟩ := AreBound_64_iff l1 r1
    obtain ⟨b2, hb2, i2⟩ := AreBound_64_iff l2 r2
    rw [hb1, hb2]
    congr 1
    rw [Bool.eq_iff_iff, i1, i2]
    constructor
    · intro g i hi h1 h2 h3
      rw [← (h i hi h1 h2 h3).1, ← (h i hi h1 h2 h3).2]
      exact g i hi h1 h2 h3
    · intro g i hi h1 h2 h3
      rw [(h i hi h1 h2 h3).1, (h i hi h1 h2 h3).2]
      exact g i hi h1 h2 h3
  have same40 : ∀ (l1 r1 l2 r2 : StdFunction α ρ σ),
      (∀ i, i < 40 → i ≠ 8 → i ≠ 16 → i ≠ 36 →
        l1.bytes.getD i 0 = l2.bytes.getD i 0 ∧ r1.bytes.getD i 0 = r2.bytes.getD i 0) →
      AreBoundFounctionsEqual 40 l1 r1 = AreBoundFounctionsEqual 40 l2 r2 := by
    intro l1 r1 l2 r2 h
    obtain ⟨b1, hb1, i1⟩ := AreBound_40_iff l1 r1
    obtain ⟨b2, hb2, i2⟩ := AreBound_40_iff l2 r2
    rw [hb1, hb2]
    congr 1
    rw [Bool.eq_iff_iff, i1, i2]
    constructor
    · intro g i hi h1 h2 h3
      rw [← (h i hi h1 h2 h3).1, ← (h i hi h1 h2 h3).2]
      exact g i hi h1 h2 h3
    · intro g i hi h1 h2 h3
      rw [(h i hi h1 h2 h3).1, (h i hi h1 h2 h3).2]
      exact g i hi h1 h2 h3
  refine ⟨AreBound_64_iff l r, AreBound_40_iff l r, ?_, ?_, ?_, ?_⟩
  · intro m v hm
    have hm2 : m = 16 ∨ m = 56 ∨ m = 57 := by simpa using hm
    constructor
    · apply same64
      intro i _ h1 h2 h3
      exact ⟨getD_set_ne l.bytes m v i (by omega), rfl⟩
    · apply same64
      intro i _ h1 h2 h3
      exact ⟨rfl, getD_set_ne r.bytes m v i (by omega)⟩
  · intro m v hm
    have hm2 : m = 8 ∨ m = 16 ∨ m = 36 := by simpa using hm
    constructor
    · apply same40
      intro i _ h1 h2 h3
      exact ⟨getD_set_ne l.bytes m v i (by omega), rfl⟩
    · apply same40
      intro i _ h1 h2 h3
      exact ⟨rfl, getD_set_ne r.bytes m v i (by omega)⟩
  · intro m hm
    have hm2 : m = 16 ∨ m = 56 ∨ m = 57 := by simpa using hm
    rw [length_placementCopy]; omega
  · intro m hm
    have hm2 : m = 8 ∨ m = 16 ∨ m = 36 := by simpa using hm
    rw [length_placementCopy]; omega

/-- An instance of C17: two representations that differ only at offset 8, which is masked for
size 40 and not for size 64. -/
theorem C17_byte_comparison_masks_witness :
    AreBoundFounctionsEqual 40 (Example.closureA [0, 0, 0, 0, 0, 0, 0, 0, 7])
        (Example.closureB []) = .ok true ∧
      AreBoundFounctionsEqual 64 (Example.closureA [0, 0, 0, 0, 0, 0, 0, 0, 7])
        (Example.closureB []) = .ok false := by
  obtain ⟨⟨b64, h64, i64⟩, ⟨b40, h40, i40⟩, _⟩ :=
    C17_byte_comparison_masks (Example.closureA [0, 0, 0, 0, 0, 0, 0, 0, 7])
      (Example.closureB [])
  constructor
  · rw [h40, i40.mpr (by decide)]
  · rw [h64]
    cases b64 with
    | false => rfl
    | true =>
      have hbyte := i64.mp rfl 8 (by decide) (by decide) (by decide) (by decide)
      exact absurd hbyte (by decide)

theorem find_if_split_throw (pred : Delegate α ρ σ → Except Exn Bool)
    (pre post : List (Delegate α ρ σ)) (e : Delegate α ρ σ) (x : Exn)
    (he : pred e = .error x) (hpost : ∀ y ∈ post, pred y = .ok false) :
    find_if pred (pre ++ e :: post) (pre ++ e :: post).length 0 = .error x := by
  apply find_if_throw pred (pre ++ e :: post) post.length x
  · omega
  · simp only [List.length_append, List.length_cons]; omega
  · intro i _ hi
    exact hpost _ (getD_split_post pre post e i hi)
  · rw [getD_split_mid]; exact he

theorem legacy_pred_eq (size : Nat) (c : Delegate α ρ σ) :
    (fun other : Delegate α ρ σ => c.opEq size other) = (fun entry => entry.opEq size c) :=
  funext (fun other => Delegate.opEq_comm size c other)

/-- C18: `operator==` is symmetric: `a == b` and `b == a` are the same outcome, the same
exception or the same boolean, and so are `a != b` and `b != a`. Hence the search of the older
`operator-=`, which tests `callback == other`, stops where `std::find` testing
`entry == callback` stops, and the two versions of remove give the same result on every
registry and argument. -/
theorem C18_equality_symmetric (size : Nat) (a b : Delegate α ρ σ) :
    a.opEq size b = b.opEq size a ∧ a.opNe size b = b.opNe size a ∧
      (∀ (cb : List (Delegate α ρ σ)) (c : Delegate α ρ σ),
        find_if (fun other => c.opEq size other) cb cb.length 0 = find size cb c) ∧
      (∀ (r : MulticastDelegate α ρ σ) (c : Delegate α ρ σ),
        Legacy.opSubAssign size r c = r.opSubAssign size c) := by
  refine ⟨Delegate.opEq_comm size a b, ?_, ?_, ?_⟩
  · simp only [Delegate.opNe, Delegate.opEq_comm size a b]
  · intro cb c
    rw [legacy_pred_eq size c]
    rfl
  · intro r c
    simp only [Legacy.opSubAssign, MulticastDelegate.opSubAssign, find, legacy_pred_eq size c]

/-- C19: when, scanning backward, every entry after `e` compares false with `c` and the
comparison of `e` with `c` throws `x`, `remove(c)` throws `x` and the registry object still
holds the sequence it held before the call. More generally, whenever `operator-=` is left by an
exception the registry is unchanged, and the transition agrees with the result of
`operator-=`. -/
theorem C19_remove_atomic_on_throw (size : Nat) (pre post : List (Delegate α ρ σ))
    (e c : Delegate α ρ σ) (x : Exn) (hpost : ∀ y ∈ post, y.opEq size c = .ok false)
    (hthrow : e.opEq size c = .error x) :
    MulticastDelegate.opSubAssignEffect size { callbacks := pre ++ e :: post } c
        = (some x, { callbacks := pre ++ e :: post }) ∧
      MulticastDelegate.opSubAssign size { callbacks := pre ++ e :: post } c = .error x ∧
      Legacy.opSubAssign size { callbacks := pre ++ e :: post } c = .error x ∧
      (∀ (r : MulticastDelegate α ρ σ) (d : Delegate α ρ σ) (y : Exn),
        (r.opSubAssignEffect size d).1 = some y → (r.opSubAssignEffect size d).2 = r) ∧
      (∀ (r : MulticastDelegate α ρ σ) (d : Delegate α ρ σ),
        r.opSubAssign size d =
          match r.opSubAssignEffect size d with
          | (some y, _) => .error y
          | (none, r2) => .ok r2) := by
  have hfind : find size (pre ++ e :: post) c = .error x :=
    find_if_split_throw (fun entry => entry.opEq size c) pre post e x hthrow hpost
  have hsub : MulticastDelegate.opSubAssign size { callbacks := pre ++ e :: post } c
      = .error x := by
    simp only [MulticastDelegate.opSubAssign, hfind]
  refine ⟨?_, hsub, ?_, ?_, ?_⟩
  · simp only [MulticastDelegate.opSubAssignEffect, hfind]
  · simp only [Legacy.opSubAssign, legacy_pred_eq size c]
    exact hsub
  · intro r d y h
    unfold MulticastDelegate.opSubAssignEffect at h ⊢
    cases hf : find size r.callbacks d with
    | error z => simp [hf]
    | ok k =>
      rw [hf] at h
      by_cases hk : k = r.callbacks.length <;> simp [hk] at h
  · intro r d
    unfold MulticastDelegate.opSubAssign MulticastDelegate.opSubAssignEffect
    cases hf : find size r.callbacks d with
    | error z => rfl
    | ok k =>
      by_cases hk : k = r.callbacks.length <;> simp [hk]

/-- An instance of C19: size 32, registry `[A, f]`, argument `B`: the comparison of `f` with
`B` is false, the comparison of `A` with `B` throws. -/
theorem C19_remove_atomic_on_throw_witness :
    MulticastDelegate.opSubAssignEffect 32
        { callbacks := [] ++ Example.dA [1] :: [Example.df] } (Example.dB [2])
      = (some Exn.logic_error, { callbacks := [] ++ Example.dA [1] :: [Example.df] }) :=
  (C19_remove_atomic_on_throw 32 [] [Example.df] (Example.dA [1]) (Example.dB [2])
    Exn.logic_error (by intro y hy; simp at hy; subst hy; rfl) rfl).1

/-- C20, the code at the failing input: signature `void(std::vector<int>)`, three subscribers
that record the vector they receive, invoke with `[1, 2, 3]`. The `operator()` of
`Platform.Delegates.MulticastDelegate.h` forwards the pack in every iteration, so the first
subscriber receives `[1, 2, 3]` and the next two the moved-from, empty vector. The older
`operator()` passes a copy and every subscriber receives `[1, 2, 3]`, as does the newer one
when forwarding leaves the pack intact. -/
theorem C20_forward_in_loop_hands_on_moved_pack :
    MulticastDelegate.opCall Example.movedVector
        { callbacks := [Example.echo, Example.echo, Example.echo] } [1, 2, 3] []
      = (.ok (), [[1, 2, 3], [], []]) ∧
    Legacy.opCall { callbacks := [Example.echo, Example.echo, Example.echo] } [1, 2, 3] []
      = (.ok (), [[1, 2, 3], [1, 2, 3], [1, 2, 3]]) ∧
    MulticastDelegate.opCall id
        { callbacks := [Example.echo, Example.echo, Example.echo] } [1, 2, 3] []
      = (.ok (), [[1, 2, 3], [1, 2, 3], [1, 2, 3]]) :=
  ⟨rfl, rfl, rfl⟩

end Claims

end Delegates
